import Mathlib

/-
Verification of the SBF header/payload codec implemented in tools/cc.py
(functions is_int, get_name_index_dict, remove_sf, add_sf, rename_sf,
shift_array, read_sbf_header, read_sbf, write_sbf).

Modelling conventions:
  * Python float64 arithmetic is modelled as exact rational arithmetic (ℚ);
    the narrowing conversion astype to big-endian float32 is an abstract
    parameter f32 : ℚ → ℚ of the write path, so theorems hold for every
    rounding function (and can be instantiated with id for evaluation).
  * The configparser object is modelled at the parsed level: an ordered
    association list of sections, each an ordered association list of
    key/value strings, with case-sensitive keys (the code sets
    optionxform = str).  Assigning to an existing key updates the value in
    place, assigning to a fresh key appends it - exactly Python dict
    semantics with insertion order.
  * Python exceptions are modelled by Except PyError; a bare `except: pass`
    is modelled by the corresponding Option match falling back to the
    unshifted value.
  * The binary payload file is modelled at the decoded level: the preamble
    fields (flag bytes, Np, Ns, the three float64 shifts) and the flat list
    of float32 cell values that np.fromfile would return.
-/

namespace SBF

/-- Python exception classes raised by the modelled code paths (the exact
Python class of an error is approximated; no claim depends on which class
an uncaught exception has). -/
inductive PyError where
  | keyError
  | valueError
  | indexError
  | attributeError
  | evalError
deriving DecidableEq, Repr

/-! ### Decimal integer text: Python `int(...)` and `str(...)` -/

/-- Numeric value of a decimal digit character. -/
def digitVal (c : Char) : Nat := c.toNat - 48

/-- Accumulator pass over decimal digit characters. -/
def pyDigits (cs : List Char) : Nat := cs.foldl (fun a c => a * 10 + digitVal c) 0

/-- Digit-string recogniser: nonempty and all decimal digits. -/
def pyNatOptL (cs : List Char) : Option Nat :=
  if cs ≠ [] ∧ cs.all Char.isDigit then some (pyDigits cs) else none

/-- Models Python `int(s)` on a character list: an optional sign followed by
decimal digits.  (Python additionally strips surrounding whitespace and
allows digit-group underscores; those inputs never occur in the verified
paths and are excluded from the model.) -/
def pyIntOptL : List Char → Option Int
  | [] => none
  | c :: rest =>
    if c = '-' then (pyNatOptL rest).map (fun n => -(n : Int))
    else if c = '+' then (pyNatOptL rest).map (fun n => (n : Int))
    else (pyNatOptL (c :: rest)).map (fun n => (n : Int))

/-- Models Python `int(s)` on a string. -/
def pyIntOpt (s : String) : Option Int := pyIntOptL s.data

/-- Models is_int (tools/cc.py): `int(str_)` inside a try/except. -/
def is_int (s : String) : Bool := (pyIntOpt s).isSome

/-- Little-endian base-10 digits, fuel-based so that proofs can unfold it
step by step. -/
def natToDigitsGo (fuel m : Nat) : List Nat :=
  match fuel, m with
  | 0, _ => []
  | _ + 1, 0 => []
  | fuel + 1, m + 1 => ((m + 1) % 10) :: natToDigitsGo fuel ((m + 1) / 10)

/-- Little-endian base-10 digits of n. -/
def natToDigits (n : Nat) : List Nat := natToDigitsGo n n

theorem natToDigitsGo_eq (fuel : Nat) : ∀ m : Nat, m ≤ fuel →
    natToDigitsGo fuel m = Nat.digits 10 m := by
  induction fuel with
  | zero =>
    intro m hm
    interval_cases m
    simp [natToDigitsGo]
  | succ fuel ih =>
    intro m hm
    cases m with
    | zero => simp [natToDigitsGo]
    | succ m =>
      rw [natToDigitsGo, Nat.digits_def' (by norm_num : (1 : ℕ) < 10) (Nat.succ_pos m)]
      congr 1
      exact ih _ (by
        have := Nat.div_lt_self (Nat.succ_pos m) (by norm_num : (1 : ℕ) < 10)
        omega)

theorem natToDigits_eq (n : Nat) : natToDigits n = Nat.digits 10 n :=
  natToDigitsGo_eq n n le_rfl

/-- Models Python `str(n)` for a non-negative integer: standard decimal
representation. -/
def natRepr (n : Nat) : String :=
  if n = 0 then "0" else ⟨((natToDigits n).map Nat.digitChar).reverse⟩

/-- Models Python `str(i)` for an integer. -/
def intRepr (i : Int) : String :=
  if i < 0 then "-" ++ natRepr i.natAbs else natRepr i.toNat

theorem digitChar_isDigit {d : Nat} (h : d < 10) : (Nat.digitChar d).isDigit = true := by
  interval_cases d <;> decide

theorem digitVal_digitChar {d : Nat} (h : d < 10) : digitVal (Nat.digitChar d) = d := by
  interval_cases d <;> decide

theorem digitChar_ne_S {d : Nat} (h : d < 10) : Nat.digitChar d ≠ 'S' := by
  interval_cases d <;> decide

theorem isDigit_ne_S {c : Char} (h : c.isDigit = true) : c ≠ 'S' := by
  intro he; subst he; exact absurd h (by decide)

theorem isDigit_ne_minus {c : Char} (h : c.isDigit = true) : c ≠ '-' := by
  intro he; subst he; exact absurd h (by decide)

theorem isDigit_ne_plus {c : Char} (h : c.isDigit = true) : c ≠ '+' := by
  intro he; subst he; exact absurd h (by decide)

/-- Folding the digit-accumulator over a digit list (most significant first)
recovers the number whose little-endian digits were given. -/
theorem foldr_digits_eq (l : List Nat) (hl : ∀ d ∈ l, d < 10) (a : Nat) :
    l.foldr (fun d acc => acc * 10 + digitVal (Nat.digitChar d)) a
      = a * 10 ^ l.length + Nat.ofDigits 10 l := by
  induction l with
  | nil => simp [Nat.ofDigits]
  | cons d l ih =>
    have hd : d < 10 := hl d (List.mem_cons_self d l)
    have hrest : ∀ x ∈ l, x < 10 := fun x hx => hl x (List.mem_cons_of_mem d hx)
    simp only [List.foldr_cons, ih hrest, digitVal_digitChar hd, Nat.ofDigits_cons,
      List.length_cons]
    ring

theorem natRepr_data_digits (n : Nat) :
    (natRepr n).data ≠ [] ∧ (natRepr n).data.all Char.isDigit = true := by
  unfold natRepr
  rw [natToDigits_eq]
  by_cases h : n = 0
  · subst h; decide
  · simp only [h, if_false]
    constructor
    · have hne : Nat.digits 10 n ≠ [] := Nat.digits_ne_nil_iff_ne_zero.mpr h
      show ((Nat.digits 10 n).map Nat.digitChar).reverse ≠ []
      intro hcontra
      have hlen := congrArg List.length hcontra
      simp at hlen
      exact hne hlen
    · simp only [List.all_eq_true]
      intro c hc
      have hc2 : c ∈ ((Nat.digits 10 n).map Nat.digitChar).reverse := hc
      rcases List.mem_map.mp (List.mem_reverse.mp hc2) with ⟨d, hd, rfl⟩
      exact digitChar_isDigit (Nat.digits_lt_base (by norm_num) hd)

theorem pyDigits_natRepr (n : Nat) : pyDigits (natRepr n).data = n := by
  unfold natRepr
  rw [natToDigits_eq]
  by_cases h : n = 0
  · subst h; decide
  · simp only [h, if_false]
    show pyDigits (((Nat.digits 10 n).map Nat.digitChar).reverse) = n
    unfold pyDigits
    rw [← List.map_reverse, List.foldl_map, List.foldl_reverse]
    have hlt : ∀ d ∈ Nat.digits 10 n, d < 10 :=
      fun d hd => Nat.digits_lt_base (by norm_num) hd
    have := foldr_digits_eq (Nat.digits 10 n) hlt 0
    simpa [Nat.ofDigits_digits] using this

/-- Round trip: the parser recovers what natRepr printed. -/
theorem pyNat_natRepr (n : Nat) : pyNatOptL (natRepr n).data = some n := by
  have h := natRepr_data_digits n
  unfold pyNatOptL
  rw [if_pos ⟨h.1, h.2⟩, pyDigits_natRepr]

theorem natRepr_head_digit (n : Nat) :
    ∃ c cs, (natRepr n).data = c :: cs ∧ c.isDigit = true := by
  obtain ⟨hne, hall⟩ := natRepr_data_digits n
  cases h : (natRepr n).data with
  | nil => exact absurd h hne
  | cons c cs =>
    refine ⟨c, cs, rfl, ?_⟩
    rw [h] at hall
    simp only [List.all_cons, Bool.and_eq_true] at hall
    exact hall.1

theorem pyIntOptL_minus (cs : List Char) :
    pyIntOptL ('-' :: cs) = (pyNatOptL cs).map (fun n => -(n : Int)) := by
  simp [pyIntOptL]

theorem pyIntOptL_digit {c : Char} (cs : List Char) (hdig : c.isDigit = true) :
    pyIntOptL (c :: cs) = (pyNatOptL (c :: cs)).map (fun n => (n : Int)) := by
  simp [pyIntOptL, isDigit_ne_minus hdig, isDigit_ne_plus hdig]

/-- Round trip: pyIntOptL recovers what intRepr printed. -/
theorem pyInt_intRepr (i : Int) : pyIntOptL (intRepr i).data = some i := by
  unfold intRepr
  by_cases h : i < 0
  · simp only [h, if_true]
    have hstr : ("-" ++ natRepr i.natAbs).data = '-' :: (natRepr i.natAbs).data := by
      rw [String.data_append]; rfl
    rw [hstr, pyIntOptL_minus, pyNat_natRepr]
    show some (-(i.natAbs : Int)) = some i
    congr 1
    omega
  · simp only [h, if_false]
    obtain ⟨c, cs, hdata, hdig⟩ := natRepr_head_digit i.toNat
    rw [hdata, pyIntOptL_digit cs hdig, ← hdata, pyNat_natRepr]
    show some ((i.toNat : Nat) : Int) = some i
    congr 1
    omega

theorem pyInt_natRepr (n : Nat) : pyIntOptL (natRepr n).data = some (n : Int) := by
  have := pyInt_intRepr (n : Int)
  rw [intRepr, if_neg (by omega)] at this
  simpa using this

/-! ### Python `str.split` for the separator `SF` -/

/-- Models Python `s.split('SF')`: splits at each non-overlapping occurrence
of the two-character separator, scanning left to right. -/
def splitSF : List Char → List (List Char)
  | [] => [[]]
  | [c] => [[c]]
  | c :: d :: rest =>
    if c = 'S' ∧ d = 'F' then [] :: splitSF rest
    else
      match splitSF (d :: rest) with
      | [] => [[c]]
      | seg :: segs => (c :: seg) :: segs

/-- A list with no 'S' character is returned whole by splitSF. -/
theorem splitSF_no_S (l : List Char) (h : ∀ c ∈ l, c ≠ 'S') : splitSF l = [l] := by
  induction l with
  | nil => rfl
  | cons c rest ih =>
    have hc : c ≠ 'S' := h c (List.mem_cons_self c rest)
    cases rest with
    | nil => rfl
    | cons d rest' =>
      have hrest : ∀ x ∈ d :: rest', x ≠ 'S' := fun x hx => h x (List.mem_cons_of_mem c hx)
      rw [splitSF, if_neg (by tauto), ih hrest]

theorem splitSF_SF (l : List Char) : splitSF ('S' :: 'F' :: l) = [] :: splitSF l := by
  rw [splitSF, if_pos ⟨rfl, rfl⟩]

/-! ### Scalar-field keys `SF1`, `SF2`, ... -/

/-- Key of the k-th scalar field, as built by the f-strings of the source. -/
def sfKeyS (k : Int) : String := "SF" ++ intRepr k

/-- Models the key filter inside get_name_index_dict (tools/cc.py):
keep a key when `len(key.split('SF')) == 2 and is_int(key.split('SF')[1])`,
and associate the index `int(key.split('SF')[1]) - 1` to it. -/
def sfKeyIndex (key : String) : Option Int :=
  match splitSF key.data with
  | [_, num] => (pyIntOptL num).map (fun i => i - 1)
  | _ => none

theorem sfKeyS_data (k : Int) : (sfKeyS k).data = 'S' :: 'F' :: (intRepr k).data := by
  rw [sfKeyS, String.data_append]; rfl

theorem intRepr_no_S (k : Int) : ∀ c ∈ (intRepr k).data, c ≠ 'S' := by
  intro c hc
  unfold intRepr at hc
  by_cases h : k < 0
  · rw [if_pos h, String.data_append] at hc
    rcases List.mem_append.mp hc with h1 | h2
    · rw [show ("-" : String).data = ['-'] from rfl] at h1
      rw [List.mem_singleton.mp h1]; decide
    · have hall := (natRepr_data_digits k.natAbs).2
      rw [List.all_eq_true] at hall
      exact isDigit_ne_S (hall c h2)
  · rw [if_neg h] at hc
    have hall := (natRepr_data_digits k.toNat).2
    rw [List.all_eq_true] at hall
    exact isDigit_ne_S (hall c hc)

theorem splitSF_sfKeyS (k : Int) :
    splitSF (sfKeyS k).data = [[], (intRepr k).data] := by
  rw [sfKeyS_data, splitSF_SF, splitSF_no_S _ (intRepr_no_S k)]

theorem sfKeyIndex_sfKeyS (k : Int) : sfKeyIndex (sfKeyS k) = some (k - 1) := by
  unfold sfKeyIndex
  rw [splitSF_sfKeyS]
  show (pyIntOptL (intRepr k).data).map (fun i => i - 1) = some (k - 1)
  rw [pyInt_intRepr]
  rfl

theorem sfKeyS_inj {i j : Int} (h : sfKeyS i = sfKeyS j) : i = j := by
  have h2 := congrArg sfKeyIndex h
  rw [sfKeyIndex_sfKeyS, sfKeyIndex_sfKeyS] at h2
  have := Option.some.inj h2
  omega

/-- A string whose sfKeyIndex is none is never an SF key. -/
theorem sfKeyS_ne_of_none {s : String} (k : Int) (h : sfKeyIndex s = none) :
    sfKeyS k ≠ s := by
  intro he
  rw [← he, sfKeyIndex_sfKeyS] at h
  cases h

/-! ### Ordered key/value maps (configparser with optionxform = str) -/

/-- First-match lookup in an ordered key/value list; configparser data has
unique keys, for which this is Python dict lookup. -/
def kvGet {β : Type} : List (String × β) → String → Option β
  | [], _ => none
  | p :: rest, k => if p.1 = k then some p.2 else kvGet rest k

/-- Python dict assignment `d[k] = v` preserving insertion order: replace the
first entry with that key in place, or append a fresh entry at the end. -/
def kvSet {β : Type} : List (String × β) → String → β → List (String × β)
  | [], k, v => [(k, v)]
  | p :: rest, k, v => if p.1 = k then (k, v) :: rest else p :: kvSet rest k v

/-- Python dict deletion / configparser remove_option (no error if absent). -/
def kvDel {β : Type} : List (String × β) → String → List (String × β)
  | [], _ => []
  | p :: rest, k => if p.1 = k then kvDel rest k else p :: kvDel rest k

theorem kvGet_kvSet_self {β : Type} (l : List (String × β)) (k : String) (v : β) :
    kvGet (kvSet l k v) k = some v := by
  induction l with
  | nil => simp [kvSet, kvGet]
  | cons p rest ih =>
    by_cases h : p.1 = k
    · simp [kvSet, h, kvGet]
    · simp [kvSet, h, kvGet, ih]

theorem kvGet_kvSet_other {β : Type} (l : List (String × β)) {k k' : String} (v : β)
    (h : k' ≠ k) : kvGet (kvSet l k v) k' = kvGet l k' := by
  induction l with
  | nil =>
    simp only [kvSet, kvGet]
    rw [if_neg (fun he => h he.symm)]
  | cons p rest ih =>
    by_cases hp : p.1 = k
    · rw [kvSet, if_pos hp, kvGet, if_neg (fun he => h he.symm), kvGet, hp,
        if_neg (fun he => h he.symm)]
    · rw [kvSet, if_neg hp, kvGet, kvGet]
      by_cases hp' : p.1 = k'
      · rw [if_pos hp', if_pos hp']
      · rw [if_neg hp', if_neg hp', ih]

/-- Re-assigning the value a key already holds is a no-op. -/
theorem kvSet_same {β : Type} {l : List (String × β)} {k : String} {v : β}
    (h : kvGet l k = some v) : kvSet l k v = l := by
  induction l with
  | nil => simp [kvGet] at h
  | cons p rest ih =>
    obtain ⟨p1, p2⟩ := p
    by_cases hp : p1 = k
    · subst hp
      rw [kvGet, if_pos rfl] at h
      rw [kvSet, if_pos rfl, ← Option.some.inj h]
    · rw [kvGet, if_neg hp] at h
      rw [kvSet, if_neg hp, ih h]

theorem kvGet_kvDel_other {β : Type} (l : List (String × β)) {k k' : String}
    (h : k' ≠ k) : kvGet (kvDel l k) k' = kvGet l k' := by
  induction l with
  | nil => rfl
  | cons p rest ih =>
    by_cases hp : p.1 = k
    · rw [kvDel, if_pos hp, ih, kvGet, hp, if_neg (fun he => h he.symm)]
    · rw [kvDel, if_neg hp, kvGet, kvGet]
      by_cases hp' : p.1 = k'
      · rw [if_pos hp', if_pos hp']
      · rw [if_neg hp', if_neg hp', ih]

/-- Section type: ordered key/value pairs of an INI section. -/
abbrev IniSection := List (String × String)

/-- Config type: ordered named sections of a parsed INI file. -/
abbrev IniConfig := List (String × IniSection)

/-- Mutation through `config['SBF']`: update the SBF section in place. -/
def updSBF (cf : IniConfig) (f : IniSection → IniSection) : IniConfig :=
  cf.map (fun p => if p.1 = "SBF" then (p.1, f p.2) else p)

/-- Assign a whole SBF section (models repeated key mutations). -/
def setSBF (cf : IniConfig) (s : IniSection) : IniConfig := updSBF cf (fun _ => s)

/-- Models `config['SBF']`: KeyError when the section is absent. -/
def getSBFE (cf : IniConfig) : Except PyError IniSection :=
  match kvGet cf "SBF" with
  | some s => .ok s
  | none => .error .keyError

theorem kvGet_updSBF (cf : IniConfig) (f : IniSection → IniSection) :
    kvGet (updSBF cf f) "SBF" = (kvGet cf "SBF").map f := by
  induction cf with
  | nil => rfl
  | cons p rest ih =>
    by_cases hp : p.1 = "SBF"
    · simp [updSBF, kvGet, hp]
    · rw [updSBF, List.map_cons, if_neg hp]
      rw [show List.map (fun q => if q.1 = "SBF" then (q.1, f q.2) else q) rest
            = updSBF rest f from rfl]
      rw [kvGet, if_neg hp, ih, kvGet, if_neg hp]

/-! ### The name-to-index dict -/

/-- Python dict lookup for a dict built by a comprehension: a later pair with
the same key overwrites an earlier one, so the last matching pair wins. -/
def dictLookup {β : Type} : List (String × β) → String → Option β
  | [], _ => none
  | p :: rest, k =>
    match dictLookup rest k with
    | some v => some v
    | none => if p.1 = k then some p.2 else none

/-- Models get_name_index_dict (tools/cc.py): for every key of the SBF
section that the filter keeps, the pair (field name, SF number - 1), in
key-iteration order; Python dict semantics is recovered via dictLookup. -/
def get_name_index_dict (sec : IniSection) : List (String × Int) :=
  sec.filterMap (fun p => (sfKeyIndex p.1).map (fun i => (p.2, i)))

/-! ### Numeric literals: Python eval of the GlobalShift value -/

/-- Split a character list at the first exponent marker. -/
def splitAtExp : List Char → List Char × Option (List Char)
  | [] => ([], none)
  | c :: r =>
    if c = 'e' ∨ c = 'E' then ([], some r)
    else
      let p := splitAtExp r
      (c :: p.1, p.2)

/-- Split a character list at the first decimal point. -/
def splitAtDot : List Char → List Char × Option (List Char)
  | [] => ([], none)
  | c :: r =>
    if c = '.' then ([], some r)
    else
      let p := splitAtDot r
      (c :: p.1, p.2)

/-- Unsigned decimal mantissa: digits with an optional fractional part, at
least one digit in total. -/
def parseMantissa (cs : List Char) : Option ℚ :=
  match splitAtDot cs with
  | (ip, none) =>
    if ip ≠ [] ∧ ip.all Char.isDigit then some ((pyDigits ip : ℚ)) else none
  | (ip, some fp) =>
    if (ip ++ fp) ≠ [] ∧ ip.all Char.isDigit ∧ fp.all Char.isDigit then
      some ((pyDigits ip : ℚ) + (pyDigits fp : ℚ) / (10 : ℚ) ^ fp.length)
    else none

/-- Strip a leading sign, returning the sign factor and the remainder. -/
def stripSign (cs : List Char) : ℚ × List Char :=
  match cs with
  | [] => (1, [])
  | c :: r => if c = '-' then (-1, r) else if c = '+' then (1, r) else (1, c :: r)

/-- Strip a leading exponent sign. -/
def stripSignE (cs : List Char) : Int × List Char :=
  match cs with
  | [] => (1, [])
  | c :: r => if c = '-' then (-1, r) else if c = '+' then (1, r) else (1, c :: r)

/-- Signed decimal literal with an optional decimal exponent. -/
def parsePyNumber (cs0 : List Char) : Option ℚ :=
  let sp : ℚ × List Char := stripSign cs0
  match splitAtExp sp.2 with
  | (m, none) => (parseMantissa m).map (fun q => sp.1 * q)
  | (m, some ex) =>
    let ep : Int × List Char := stripSignE ex
    match parseMantissa m, pyNatOptL ep.2 with
    | some q, some e => some (sp.1 * q * (10 : ℚ) ^ (ep.1 * (e : Int)))
    | _, _ => none

/-- Remove surrounding whitespace (Python eval ignores it around tokens). -/
def trimChars (cs : List Char) : List Char :=
  ((cs.dropWhile Char.isWhitespace).reverse.dropWhile Char.isWhitespace).reverse

/-- Models Python `s.split(',')` at the character level: split at every
comma. -/
def splitComma : List Char → List (List Char)
  | [] => [[]]
  | c :: rest =>
    if c = ',' then [] :: splitComma rest
    else
      match splitComma rest with
      | [] => [[c]]
      | seg :: segs => (c :: seg) :: segs

/-- Models Python eval on a single numeric literal: optional sign, decimal
digits with an optional fractional part and optional decimal exponent,
surrounded by optional whitespace (eval ignores it).  eval additionally
accepts underscore digit groups, hex, etc.; such inputs never occur in the
verified paths and are excluded. -/
def parsePyFloat (s : String) : Option ℚ := parsePyNumber (trimChars s.data)

/-- Models Python eval of the GlobalShift header value, restricted to the
comma-separated numeric-triple fragment the format prescribes: some gs
exactly for a literal triple.  The result none deliberately conflates
several distinct program behaviours: eval raising (syntax or name errors -
silently swallowed inside shift_array, fatal in write_sbf); eval
succeeding with a k-component sequence, k not 1 or 3, whose (1, k) reshape
fails to broadcast against the N-by-3 block (swallowed inside shift_array
too); and eval succeeding with a scalar or 1-component value - for
instance "5", or the injection-shaped os.system("x") whose int result
eval returns after running the command - which np.array(.).reshape(1, -1)
broadcast-ADDS onto every coordinate.  Because of the last subclass, no
theorem below concludes a zero global contribution from evalTriple = none
alone: zero-contribution conclusions are drawn only for an absent key or
for concrete strings on which Python eval provably raises (such as the
syntax-error string "not a triple !"); for everything else only the
success of reading - never a typed shift-parsing error - is asserted. -/
def evalTriple (s : String) : Option (List ℚ) :=
  match optMapParse (splitComma s.data) with
  | some vals => if vals.length = 3 then some vals else none
  | none => none
where
  /-- Parse every comma-separated component, failing when one fails. -/
  optMapParse : List (List Char) → Option (List ℚ)
    | [] => some []
    | x :: xs =>
      match parsePyNumber (trimChars x), optMapParse xs with
      | some v, some vs => some (v :: vs)
      | _, _ => none

/-! ### NumPy arrays -/

/-- Two-dimensional NumPy array of rationals: shape plus row-major data
(float64 modelled as exact rationals). -/
structure Mat where
  nrows : Nat
  ncols : Nat
  data : List (List ℚ)
deriving DecidableEq, Repr

/-- Shape/data agreement. -/
def Mat.WF (m : Mat) : Prop :=
  m.data.length = m.nrows ∧ ∀ r ∈ m.data, r.length = m.ncols

instance (m : Mat) : Decidable m.WF := by unfold Mat.WF; infer_instance

/-- Entry at row i, column j (0 outside the carrier, making the model total). -/
def Mat.entry (m : Mat) (i j : Nat) : ℚ := (m.data.getD i []).getD j 0

/-- Models np.delete(m, j, axis=1). -/
def Mat.delCol (m : Mat) (j : Nat) : Mat :=
  ⟨m.nrows, m.ncols - 1, m.data.map (fun r => r.eraseIdx j)⟩

/-- Models np.c_[m, col]. -/
def Mat.addCol (m : Mat) (col : List ℚ) : Mat :=
  ⟨m.nrows, m.ncols + 1, (m.data.zip col).map (fun rc => rc.1 ++ [rc.2])⟩

/-- Models m[:, :k]. -/
def Mat.takeCols (m : Mat) (k : Nat) : Mat :=
  ⟨m.nrows, min k m.ncols, m.data.map (List.take k)⟩

/-- Models m[:, k:]. -/
def Mat.dropCols (m : Mat) (k : Nat) : Mat :=
  ⟨m.nrows, m.ncols - k, m.data.map (List.drop k)⟩

/-- NumPy element-wise binary operation between a row and a broadcast
1-by-n operand: a length-1 operand broadcasts over the row; in every other
modelled call the lengths agree (NumPy raises on a genuine mismatch, which
no verified path reaches). -/
def rowBin (f : ℚ → ℚ → ℚ) (r s : List ℚ) : List ℚ :=
  match s with
  | [x] => r.map (fun a => f a x)
  | _ => List.zipWith f r s

/-- Models np.mean(m, axis=0): column means.  NumPy yields NaN for the mean
of an empty axis; rationals have no NaN and Lean division by zero yields 0 -
the difference is observable only through the local shift stored for an
empty point cloud, never through reconstructed coordinates. -/
def colMeans (m : Mat) : List ℚ :=
  (List.range m.ncols).map
    (fun j => ((m.data.map (fun r => r.getD j 0)).sum) / (m.nrows : ℚ))

/-! ### The binary payload -/

/-- Decoded form of an sbf.data file: the 64-byte preamble fields (flag
bytes, Np as unsigned 64-bit, Ns as unsigned 16-bit, the three float64
shifts) and the flat list of big-endian float32 cells that np.fromfile
returns. -/
structure PayloadData where
  flag : List Nat
  Np : Nat
  Ns : Nat
  xshift : ℚ
  yshift : ℚ
  zshift : ℚ
  raw : List ℚ
deriving DecidableEq, Repr

/-- Python range(a, b): consecutive integers from a up to b - 1. -/
def pyRangeGo : Nat → Int → List Int
  | 0, _ => []
  | n + 1, x => x :: pyRangeGo n (x + 1)

/-- Python range(a, b). -/
def pyRange (a b : Int) : List Int := pyRangeGo (b - a).toNat a

/-- Models reshape(Np, k) after the caller checked the cell count: cut the
flat cell list into rows of k entries. -/
def chunkRows (k : Nat) (l : List ℚ) : List (List ℚ) :=
  if h : k = 0 ∨ l = [] then [] else l.take k :: chunkRows k (l.drop k)
termination_by l.length
decreasing_by
  simp only [List.length_drop]
  push_neg at h
  have h2 := List.length_pos.mpr h.2
  omega

/-! ### The SBF codec functions -/

/-- Models shift_array (tools/cc.py): add the payload local shift to every
row, then - when a config is given - try to eval its GlobalShift value and
add that too; every exception inside the try block (missing SBF section,
missing GlobalShift key, eval failure, broadcast failure) is swallowed by
the bare `except: pass`, leaving the array without a global contribution.
The evalTriple-none branch of this model additionally covers eval results
outside the literal-triple fragment (for example scalars, which the
program would broadcast-add to every coordinate instead); theorems draw
conclusions on that branch only for concrete strings where eval provably
raises. -/
def shift_array (array : Mat) (shift : List ℚ) (config : Option IniConfig) : Mat :=
  let a1 : Mat := ⟨array.nrows, array.ncols, array.data.map (fun r => rowBin (· + ·) r shift)⟩
  match config with
  | none => a1
  | some cf =>
    match kvGet cf "SBF" with
    | none => a1
    | some sec =>
      match kvGet sec "GlobalShift" with
      | none => a1
      | some gsStr =>
        match evalTriple gsStr with
        | none => a1
        | some gs => ⟨a1.nrows, a1.ncols, a1.data.map (fun r => rowBin (· + ·) r gs)⟩

/-- Models read_sbf_header (tools/cc.py), at the parsed-configuration level:
when no SBF section is present the function prints a message and implicitly
returns None; otherwise it returns the parsed config.  No key of the
section is validated in either case. -/
def read_sbf_header (cfg : IniConfig) : Option IniConfig :=
  if (kvGet cfg "SBF").isSome then some cfg else none

/-- Models read_sbf (tools/cc.py).  The header file is given in parsed form
and the payload file in decoded form.  reshape raises a ValueError when the
cell count of the file differs from Np * (Ns + 3); nothing is compared
against the header. -/
def read_sbf (hdr : IniConfig) (pd : PayloadData) :
    Except PyError (Mat × Option Mat × Option IniConfig) :=
  let config := read_sbf_header hdr
  if pd.raw.length ≠ pd.Np * (pd.Ns + 3) then .error .valueError
  else
    let array : Mat := ⟨pd.Np, pd.Ns + 3, chunkRows (pd.Ns + 3) pd.raw⟩
    let shift : List ℚ := [pd.xshift, pd.yshift, pd.zshift]
    let pc := shift_array (array.takeCols 3) shift config
    let sf : Option Mat := if pd.Ns ≠ 0 then some (array.dropCols 3) else none
    .ok (pc, sf, config)

/-- Models NumPy column-index normalization for np.delete(.., axis=1):
negative indices wrap, out-of-range indices raise. -/
def npColIndex (i : Int) (ncols : Nat) : Except PyError Nat :=
  if 0 ≤ i ∧ i < (ncols : Int) then .ok i.toNat
  else if -(ncols : Int) ≤ i ∧ i < 0 then .ok (i + (ncols : Int)).toNat
  else .error .indexError

/-- The first renumbering for-loop of remove_sf: for idx in range(1,
sf_index), copy the value of key SFidx from the original section onto the
new configuration (KeyError when the key is missing). -/
def renumLoopA (sec : IniSection) (idxs : List Int) (cfg : IniConfig) :
    Except PyError IniConfig :=
  idxs.foldlM (fun acc idx => do
    let some v := kvGet sec (sfKeyS idx) | .error .keyError
    pure (updSBF acc (fun s => kvSet s (sfKeyS idx) v))) cfg

/-- The second renumbering for-loop of remove_sf: for idx in
range(sf_index, sf_count), copy the value of key SF(idx+1) from the
original section onto key SFidx of the new configuration. -/
def renumLoopB (sec : IniSection) (idxs : List Int) (cfg : IniConfig) :
    Except PyError IniConfig :=
  idxs.foldlM (fun acc idx => do
    let some v := kvGet sec (sfKeyS (idx + 1)) | .error .keyError
    pure (updSBF acc (fun s => kvSet s (sfKeyS idx) v))) cfg

/-- Models remove_sf (tools/cc.py): look the name up in the index dict,
delete that column, copy the configuration, decrement SFCount, drop the
last SF key and renumber the keys above the removed one (reading the values
from the original config). -/
def remove_sf (name : String) (sf : Mat) (cf : IniConfig) :
    Except PyError (Mat × IniConfig) := do
  let sec ← getSBFE cf
  let some indexI := dictLookup (get_name_index_dict sec) name
    | .error .keyError
  let index ← npColIndex indexI sf.ncols
  let new_sf := sf.delCol index
  let some scStr := kvGet sec "SFCount" | .error .keyError
  let some sf_count := pyIntOptL scStr.data | .error .valueError
  let sf_index : Int := indexI + 1
  let cf1 := setSBF cf (kvSet sec "SFCount" (intRepr (sf_count - 1)))
  let cf2 := updSBF cf1 (fun s => kvDel s (sfKeyS sf_count))
  let cf3 ← renumLoopA sec (pyRange 1 sf_index) cf2
  let cf4 ← renumLoopB sec (pyRange sf_index sf_count) cf3
  pure (new_sf, cf4)

/-- Models add_sf (tools/cc.py).  Python mutates config in place and returns
the extended array; the model returns both.  There is no duplicate-name
check of any kind.  np.c_ raises when the new column length differs from
the row count (in Python the config mutation has already happened then;
the error path of the model does not expose the half-mutated alias). -/
def add_sf (name : String) (sf : Mat) (cf : IniConfig) (sf_to_add : List ℚ) :
    Except PyError (Mat × IniConfig) := do
  let sec ← getSBFE cf
  let some scStr := kvGet sec "SFCount" | .error .keyError
  let some sf_count := pyIntOptL scStr.data | .error .valueError
  let sec1 := kvSet sec (sfKeyS (sf_count + 1)) name
  let sec2 := kvSet sec1 "SFCount" (intRepr (sf_count + 1))
  if sf_to_add.length = sf.nrows then
    pure (sf.addCol sf_to_add, setSBF cf sec2)
  else .error .valueError

/-- Models rename_sf (tools/cc.py): rewrite the value of the SF key at the
field's index; the column data is never touched (the function does not even
receive the array).  Python mutates config in place, the model returns it. -/
def rename_sf (name new_name : String) (cf : IniConfig) :
    Except PyError IniConfig := do
  let sec ← getSBFE cf
  let some index := dictLookup (get_name_index_dict sec) name
    | .error .keyError
  pure (setSBF cf (kvSet sec (sfKeyS (index + 1)) new_name))

/-- Default SF names `1`, `2`, ... used when write_sbf builds a fresh
configuration. -/
def defaultSF (n : Nat) : IniSection :=
  (List.range n).map (fun k => (sfKeyS (Int.ofNat (k + 1)), natRepr (k + 1)))

/-- Models write_sbf (tools/cc.py).  The result is the parsed content of the
header file together with the decoded payload file.  Fidelity notes: the
header file is physically written before the GlobalShift eval, so in Python
a failing eval leaves an orphan header on disk while the model only reports
the exception; Np and Ns are packed as unsigned 64-bit and 16-bit values
(overflow is unreachable for in-memory arrays and not modelled); with
add_index the temporary b of SFCount+1 columns receives `b[:, :-1] = a`
where a has SFCount+3 columns, which always raises a ValueError (and the
assignment `a[:, 3:] = sf` already fails before that, since the add_index
and normals branches inflate SFCount beyond the column count of sf). -/
def write_sbf (f32 : ℚ → ℚ) (pc : Mat) (sf : Option Mat) (config : Option IniConfig)
    (add_index : Bool) (normals : Option Unit) :
    Except PyError (IniConfig × PayloadData) := do
  let SFCount0 : Nat := match sf with | some m => m.ncols | none => 0
  let Points : Nat := pc.nrows
  let cf0 : IniConfig ←
    match config with
    | none =>
      pure [("SBF",
        [("Points", natRepr Points), ("SFCount", natRepr SFCount0),
         ("GlobalShift", "0., 0., 0.")] ++ defaultSF SFCount0)]
    | some cf =>
      match kvGet cf "SBF" with
      | none => .error .keyError
      | some _ =>
        pure (updSBF (updSBF cf (fun s => kvSet s "Points" (natRepr Points)))
          (fun s => kvSet s "SFCount" (natRepr SFCount0)))
  let st1 : Nat × IniConfig ←
    if add_index then do
      let sec ← getSBFE cf0
      let SFC := if (kvGet sec "SFCount").isSome then SFCount0 + 1 else 1
      pure (SFC, updSBF cf0 (fun s =>
        kvSet (kvSet s "SFcount" (natRepr SFC)) (sfKeyS (SFC : Int)) "index"))
    else pure (SFCount0, cf0)
  let st2 : Nat × IniConfig ←
    match normals with
    | some _ => do
      let sec ← getSBFE st1.2
      let SFC := if (kvGet sec "SFCount").isSome then st1.1 + 3 else 3
      pure (SFC, updSBF st1.2 (fun s =>
        kvSet (kvSet (kvSet (kvSet s "SFcount" (natRepr SFC))
          (sfKeyS ((SFC : Int) + 1)) "Nx") (sfKeyS ((SFC : Int) + 2)) "Ny")
          (sfKeyS ((SFC : Int) + 3)) "Nz"))
    | none => pure st1
  let SFCount2 : Nat := st2.1
  let cf2 : IniConfig := st2.2
  let sec2 ← getSBFE cf2
  let some gsStr := kvGet sec2 "GlobalShift" | .error .keyError
  let some gs := evalTriple gsStr | .error .evalError
  if pc.ncols ≠ 3 then .error .valueError
  else do
    let pcOrig : Mat := ⟨pc.nrows, pc.ncols, pc.data.map (fun r => rowBin (· - ·) r gs)⟩
    let shift : List ℚ := colMeans pcOrig
    let coords : List (List ℚ) :=
      pcOrig.data.map (fun r => (rowBin (· - ·) r shift).map f32)
    let rows1 : List (List ℚ) ←
      if SFCount2 ≠ 0 then
        match sf with
        | none => .error .attributeError
        | some m =>
          if m.ncols = SFCount2 ∧ m.nrows = Points then
            pure ((coords.zip m.data).map (fun p => p.1 ++ p.2.map f32))
          else .error .valueError
      else pure coords
    if add_index then .error .valueError
    else
      pure (cf2, { flag := [42, 42], Np := Points, Ns := SFCount2,
                   xshift := shift.getD 0 0, yshift := shift.getD 1 0,
                   zshift := shift.getD 2 0, raw := rows1.flatten })

/-! ### Support lemmas about rows and entries -/

theorem getD_zipWith (f : ℚ → ℚ → ℚ) (r s : List ℚ) (j : Nat)
    (hr : j < r.length) (hs : j < s.length) :
    (List.zipWith f r s).getD j 0 = f (r.getD j 0) (s.getD j 0) := by
  induction r generalizing s j with
  | nil => simp at hr
  | cons a r ih =>
    cases s with
    | nil => simp at hs
    | cons b s =>
      cases j with
      | zero => rfl
      | succ j =>
        have hr' : j < r.length := by simpa using hr
        have hs' : j < s.length := by simpa using hs
        simpa [List.getD_cons_succ] using ih s j hr' hs'

theorem getD_map (f : ℚ → ℚ) (r : List ℚ) (j : Nat) (h : j < r.length) :
    (r.map f).getD j 0 = f (r.getD j 0) := by
  induction r generalizing j with
  | nil => simp at h
  | cons a r ih =>
    cases j with
    | zero => rfl
    | succ j =>
      have h' : j < r.length := by simpa using h
      simpa [List.getD_cons_succ] using ih j h'

theorem rowBin_triple (f : ℚ → ℚ → ℚ) (r : List ℚ) (a b c : ℚ) :
    rowBin f r [a, b, c] = List.zipWith f r [a, b, c] := rfl

theorem length_rowBin_triple (f : ℚ → ℚ → ℚ) (r : List ℚ) (a b c : ℚ) :
    (rowBin f r [a, b, c]).length = min r.length 3 := by
  rw [rowBin_triple, List.length_zipWith]
  rfl

/-! ### Unfolding lemmas for shift_array and read_sbf -/

theorem shift_array_nrows (a : Mat) (s : List ℚ) (c : Option IniConfig) :
    (shift_array a s c).nrows = a.nrows := by
  cases c with
  | none => rfl
  | some cf =>
    cases h1 : kvGet cf "SBF" with
    | none => simp [shift_array, h1]
    | some sec =>
      cases h2 : kvGet sec "GlobalShift" with
      | none => simp [shift_array, h1, h2]
      | some g =>
        cases h3 : evalTriple g with
        | none => simp [shift_array, h1, h2, h3]
        | some gs => simp [shift_array, h1, h2, h3]

theorem shift_array_ncols (a : Mat) (s : List ℚ) (c : Option IniConfig) :
    (shift_array a s c).ncols = a.ncols := by
  cases c with
  | none => rfl
  | some cf =>
    cases h1 : kvGet cf "SBF" with
    | none => simp [shift_array, h1]
    | some sec =>
      cases h2 : kvGet sec "GlobalShift" with
      | none => simp [shift_array, h1, h2]
      | some g =>
        cases h3 : evalTriple g with
        | none => simp [shift_array, h1, h2, h3]
        | some gs => simp [shift_array, h1, h2, h3]

/-- Local shift only, no config. -/
theorem shift_array_none (a : Mat) (s : List ℚ) :
    shift_array a s none
      = ⟨a.nrows, a.ncols, a.data.map (fun r => rowBin (· + ·) r s)⟩ := rfl

/-- Local shift only: the GlobalShift key is absent, `config['SBF']['GlobalShift']`
raises KeyError and the bare except swallows it. -/
theorem shift_array_no_key {cf : IniConfig} {sec : IniSection} (a : Mat) (s : List ℚ)
    (h1 : kvGet cf "SBF" = some sec) (h2 : kvGet sec "GlobalShift" = none) :
    shift_array a s (some cf)
      = ⟨a.nrows, a.ncols, a.data.map (fun r => rowBin (· + ·) r s)⟩ := by
  simp [shift_array, h1, h2]

/-- Local shift only: eval of the GlobalShift value raises and the bare
except swallows it - the malformed value is silently ignored. -/
theorem shift_array_bad_value {cf : IniConfig} {sec : IniSection} {g : String}
    (a : Mat) (s : List ℚ)
    (h1 : kvGet cf "SBF" = some sec) (h2 : kvGet sec "GlobalShift" = some g)
    (h3 : evalTriple g = none) :
    shift_array a s (some cf)
      = ⟨a.nrows, a.ncols, a.data.map (fun r => rowBin (· + ·) r s)⟩ := by
  simp [shift_array, h1, h2, h3]

/-- Both shifts: the GlobalShift value evaluates to a triple and is added. -/
theorem shift_array_good {cf : IniConfig} {sec : IniSection} {g : String} {gs : List ℚ}
    (a : Mat) (s : List ℚ)
    (h1 : kvGet cf "SBF" = some sec) (h2 : kvGet sec "GlobalShift" = some g)
    (h3 : evalTriple g = some gs) :
    shift_array a s (some cf)
      = ⟨a.nrows, a.ncols,
         (a.data.map (fun r => rowBin (· + ·) r s)).map (fun r => rowBin (· + ·) r gs)⟩ := by
  simp [shift_array, h1, h2, h3]

/-- The matrix read by read_sbf from the decoded payload cells. -/
def payloadMat (pd : PayloadData) : Mat :=
  ⟨pd.Np, pd.Ns + 3, chunkRows (pd.Ns + 3) pd.raw⟩

theorem read_sbf_ok (hdr : IniConfig) (pd : PayloadData)
    (hlen : pd.raw.length = pd.Np * (pd.Ns + 3)) :
    read_sbf hdr pd
      = .ok (shift_array ((payloadMat pd).takeCols 3)
               [pd.xshift, pd.yshift, pd.zshift] (read_sbf_header hdr),
             if pd.Ns ≠ 0 then some ((payloadMat pd).dropCols 3) else none,
             read_sbf_header hdr) := by
  unfold read_sbf payloadMat
  rw [if_neg (by omega)]

/-! ### Concrete inputs used by witnesses and counterexamples -/

/-- A minimal well-formed header. -/
def hdrW : IniConfig :=
  [("SBF", [("Points", "1"), ("SFCount", "0"), ("GlobalShift", "0., 0., 0.")])]

/-- A one-point, zero-field payload. -/
def pdW0 : PayloadData := ⟨[42, 42], 1, 0, 0, 1, 2, [5, 6, 7]⟩

/-- A one-point, two-field payload. -/
def pdW2 : PayloadData := ⟨[42, 42], 1, 2, 0, 0, 0, [1, 2, 3, 4, 5]⟩

/-! ### C10 -/

/-- C10: for every header/payload pair whose payload preamble declares
Ns = 0 scalar fields, reading returns None as the scalar-field component
instead of an empty N-by-0 matrix, while the point matrix is still returned
with its Np rows; for Ns > 0 the scalar-field component is the N-by-Ns
right block of the payload matrix. -/
theorem read_zero_sf_is_none (hdr : IniConfig) (pd : PayloadData)
    (hlen : pd.raw.length = pd.Np * (pd.Ns + 3)) :
    (pd.Ns = 0 →
      ∃ pc cfg, read_sbf hdr pd = .ok (pc, none, cfg) ∧ pc.nrows = pd.Np) ∧
    (pd.Ns ≠ 0 →
      ∃ pc cfg, read_sbf hdr pd = .ok (pc, some ((payloadMat pd).dropCols 3), cfg)
        ∧ pc.nrows = pd.Np ∧ ((payloadMat pd).dropCols 3).nrows = pd.Np
        ∧ ((payloadMat pd).dropCols 3).ncols = pd.Ns) := by
  have hro := read_sbf_ok hdr pd hlen
  constructor
  · intro h0
    refine ⟨shift_array ((payloadMat pd).takeCols 3)
        [pd.xshift, pd.yshift, pd.zshift] (read_sbf_header hdr),
      read_sbf_header hdr, ?_, ?_⟩
    · rw [hro]; simp [h0]
    · rw [shift_array_nrows]; rfl
  · intro h0
    refine ⟨shift_array ((payloadMat pd).takeCols 3)
        [pd.xshift, pd.yshift, pd.zshift] (read_sbf_header hdr),
      read_sbf_header hdr, ?_, ?_, ?_, ?_⟩
    · rw [hro]; simp [h0]
    · rw [shift_array_nrows]; rfl
    · rfl
    · show pd.Ns + 3 - 3 = pd.Ns; omega

/-- Witness for C10: the theorem applied to concrete payloads with Ns = 0
and Ns = 2. -/
theorem read_zero_sf_is_none_witness :
    ((pdW0.Ns = 0 →
       ∃ pc cfg, read_sbf hdrW pdW0 = .ok (pc, none, cfg) ∧ pc.nrows = pdW0.Np) ∧
     (pdW0.Ns ≠ 0 →
       ∃ pc cfg, read_sbf hdrW pdW0 = .ok (pc, some ((payloadMat pdW0).dropCols 3), cfg)
         ∧ pc.nrows = pdW0.Np ∧ ((payloadMat pdW0).dropCols 3).nrows = pdW0.Np
         ∧ ((payloadMat pdW0).dropCols 3).ncols = pdW0.Ns)) ∧
    ((pdW2.Ns = 0 →
       ∃ pc cfg, read_sbf hdrW pdW2 = .ok (pc, none, cfg) ∧ pc.nrows = pdW2.Np) ∧
     (pdW2.Ns ≠ 0 →
       ∃ pc cfg, read_sbf hdrW pdW2 = .ok (pc, some ((payloadMat pdW2).dropCols 3), cfg)
         ∧ pc.nrows = pdW2.Np ∧ ((payloadMat pdW2).dropCols 3).nrows = pdW2.Np
         ∧ ((payloadMat pdW2).dropCols 3).ncols = pdW2.Ns)) :=
  ⟨read_zero_sf_is_none hdrW pdW0 (by simp [pdW0]),
   read_zero_sf_is_none hdrW pdW2 (by simp [pdW2])⟩

/-! ### C2 -/

/-- C2 counterexample: a header declaring Points = 100 opened against a
payload whose preamble and body encode 2 rows is read successfully - no
PayloadHeaderMismatch check exists and a full Document is returned. -/
theorem no_mismatch_check_counterexample :
    read_sbf [("SBF", [("Points", "100"), ("SFCount", "0"), ("GlobalShift", "0., 0., 0.")])]
        ⟨[42, 42], 2, 0, 0, 0, 0, [1, 2, 3, 4, 5, 6]⟩
      = .ok (⟨2, 3, [[1, 2, 3], [4, 5, 6]]⟩, none,
             some [("SBF", [("Points", "100"), ("SFCount", "0"),
                 ("GlobalShift", "0., 0., 0.")])]) := by
  simp +decide [read_sbf, read_sbf_header, kvGet, chunkRows, shift_array, evalTriple,
    splitComma, trimChars, evalTriple.optMapParse, parsePyNumber, stripSign, splitAtExp,
    splitAtDot, parseMantissa, pyNatOptL, pyDigits, digitVal, Mat.takeCols, Mat.dropCols,
    rowBin, payloadMat, List.dropWhile]

/-- C2 (amended): read_sbf takes Np and Ns solely from the payload preamble
and performs no cross-validation against the header's Points/SFCount: for
every header whatsoever, an internally consistent payload is opened
successfully and the returned point matrix has the preamble's Np rows. -/
theorem no_mismatch_check (hdr : IniConfig) (pd : PayloadData)
    (hlen : pd.raw.length = pd.Np * (pd.Ns + 3)) :
    ∃ pc rest, read_sbf hdr pd = .ok (pc, rest) ∧ pc.nrows = pd.Np := by
  refine ⟨_, _, read_sbf_ok hdr pd hlen, ?_⟩
  rw [shift_array_nrows]; rfl

/-- Witness for C2: the amended theorem applied to the Points=100 header
over a 2-row payload. -/
theorem no_mismatch_check_witness :
    ∃ pc rest,
      read_sbf [("SBF", [("Points", "100"), ("SFCount", "0"), ("GlobalShift", "0., 0., 0.")])]
          ⟨[42, 42], 2, 0, 0, 0, 0, [1, 2, 3, 4, 5, 6]⟩
        = .ok (pc, rest) ∧ pc.nrows = 2 :=
  no_mismatch_check _ _ (by simp)

/-! ### C6 -/

/-- C6 counterexample: a header text with no SBF section makes
read_sbf_header return None with no HeaderMalformed failure, and read_sbf
still produces a Document from the payload; a header whose Points is not an
integer, whose SFCount is negative and whose single SF key SF3 is not a
contiguous 1..SFCount numbering is accepted verbatim - no validation at
all - and read_sbf succeeds as well. -/
theorem header_no_validation_counterexample :
    (read_sbf_header [("Other", [("Points", "abc")])] = none) ∧
    (read_sbf [("Other", [("Points", "abc")])] ⟨[42, 42], 1, 0, 9, 9, 9, [1, 2, 3]⟩
       = .ok (⟨1, 3, [[10, 11, 12]]⟩, none, none)) ∧
    (read_sbf_header [("SBF", [("Points", "abc"), ("SFCount", "-5"), ("SF3", "x")])]
       = some [("SBF", [("Points", "abc"), ("SFCount", "-5"), ("SF3", "x")])]) ∧
    (read_sbf [("SBF", [("Points", "abc"), ("SFCount", "-5"), ("SF3", "x")])]
        ⟨[42, 42], 1, 0, 9, 9, 9, [1, 2, 3]⟩
       = .ok (⟨1, 3, [[10, 11, 12]]⟩, none,
              some [("SBF", [("Points", "abc"), ("SFCount", "-5"), ("SF3", "x")])])) := by
  refine ⟨?_, ?_, ?_, ?_⟩ <;>
    simp +decide [read_sbf, read_sbf_header, kvGet, chunkRows, shift_array, evalTriple,
      splitComma, trimChars, evalTriple.optMapParse, parsePyNumber, stripSign, splitAtExp,
      splitAtDot, parseMantissa, pyNatOptL, Mat.takeCols, Mat.dropCols, rowBin, payloadMat,
      List.dropWhile] <;> norm_num

/-- C6 (amended): read_sbf_header checks nothing except the presence of an
SBF section: if the section is missing it returns None (after printing a
message) instead of failing with HeaderMalformed, and read_sbf continues
regardless, producing a Document with config None; when the SBF section is
present the whole config is returned verbatim, with Points, SFCount and the
SF keys never validated. -/
theorem header_no_validation (cfg : IniConfig) (pd : PayloadData)
    (hlen : pd.raw.length = pd.Np * (pd.Ns + 3)) :
    (kvGet cfg "SBF" = none →
       read_sbf_header cfg = none ∧
       ∃ pc sf, read_sbf cfg pd = .ok (pc, sf, none)) ∧
    (∀ sec, kvGet cfg "SBF" = some sec → read_sbf_header cfg = some cfg) := by
  constructor
  · intro hn
    have hr : read_sbf_header cfg = none := by simp [read_sbf_header, hn]
    refine ⟨hr, shift_array ((payloadMat pd).takeCols 3)
        [pd.xshift, pd.yshift, pd.zshift] none,
      if pd.Ns ≠ 0 then some ((payloadMat pd).dropCols 3) else none, ?_⟩
    rw [read_sbf_ok cfg pd hlen, hr]
  · intro sec hs
    simp [read_sbf_header, hs]

/-- Witness for C6: the amended theorem applied to a section-less header. -/
theorem header_no_validation_witness :
    (kvGet ([("Other", [("Points", "abc")])] : IniConfig) "SBF" = none →
       read_sbf_header [("Other", [("Points", "abc")])] = none ∧
       ∃ pc sf, read_sbf [("Other", [("Points", "abc")])] pdW0 = .ok (pc, sf, none)) ∧
    (∀ sec, kvGet ([("Other", [("Points", "abc")])] : IniConfig) "SBF" = some sec →
       read_sbf_header [("Other", [("Points", "abc")])] = some [("Other", [("Points", "abc")])]) :=
  header_no_validation _ pdW0 (by simp [pdW0])

/-! ### C1 -/

/-- C1 counterexample: a header whose GlobalShift value is the
injection-shaped string os.system("x") is read successfully - reading does
not fail with any GlobalShiftMalformed error - and a header whose
GlobalShift value is an unparseable string is silently ignored: the
returned coordinates carry only the payload's local shift. -/
theorem global_shift_counterexample :
    (read_sbf [("SBF", [("Points", "1"), ("SFCount", "0"),
          ("GlobalShift", "os.system(\"x\")")])]
        ⟨[42, 42], 1, 0, 0, 0, 0, [1, 2, 3]⟩).isOk = true ∧
    read_sbf [("SBF", [("Points", "1"), ("SFCount", "0"),
        ("GlobalShift", "not a triple !")])]
        ⟨[42, 42], 1, 0, 5, 6, 7, [1, 2, 3]⟩
      = .ok (⟨1, 3, [[6, 8, 10]]⟩, none,
             some [("SBF", [("Points", "1"), ("SFCount", "0"),
                 ("GlobalShift", "not a triple !")])]) := by
  constructor <;>
    simp +decide [read_sbf, read_sbf_header, kvGet, chunkRows, shift_array, evalTriple,
      splitComma, trimChars, evalTriple.optMapParse, parsePyNumber, stripSign, splitAtExp,
      splitAtDot, parseMantissa, pyNatOptL, Mat.takeCols, Mat.dropCols, rowBin, payloadMat,
      List.dropWhile] <;> norm_num

/-- C1 (amended): the GlobalShift value is handed to a general-purpose
evaluator (eval) inside a bare try/except, so no GlobalShiftMalformed or
any other typed shift-parsing error exists and reading always succeeds
whatever the value holds; an absent key contributes nothing without
error; a value that evaluates to a literal triple is added to every
coordinate row on top of the payload's local shift; and a value on which
eval raises - such as the concrete syntax-error string "not a triple !" -
is silently swallowed and contributes nothing.  (A value eval accepts
outside the literal-triple fragment, e.g. the injection os.system("x")
whose int result broadcasts, adds that result instead of failing; beyond
the success of reading the model asserts nothing there.) -/
theorem global_shift_silently_swallowed (hdr : IniConfig) (pd : PayloadData)
    (sec : IniSection)
    (hlen : pd.raw.length = pd.Np * (pd.Ns + 3))
    (hsec : kvGet hdr "SBF" = some sec) :
    (∃ pc sf cfg, read_sbf hdr pd = .ok (pc, sf, cfg)) ∧
    (kvGet sec "GlobalShift" = none →
      read_sbf hdr pd
        = .ok (shift_array ((payloadMat pd).takeCols 3)
                 [pd.xshift, pd.yshift, pd.zshift] none,
               if pd.Ns ≠ 0 then some ((payloadMat pd).dropCols 3) else none,
               some hdr)) ∧
    (∀ g gs, kvGet sec "GlobalShift" = some g → evalTriple g = some gs →
      read_sbf hdr pd
        = .ok (⟨(shift_array ((payloadMat pd).takeCols 3)
                    [pd.xshift, pd.yshift, pd.zshift] none).nrows,
                (shift_array ((payloadMat pd).takeCols 3)
                    [pd.xshift, pd.yshift, pd.zshift] none).ncols,
                ((shift_array ((payloadMat pd).takeCols 3)
                    [pd.xshift, pd.yshift, pd.zshift] none).data.map
                  (fun r => rowBin (· + ·) r gs))⟩,
               if pd.Ns ≠ 0 then some ((payloadMat pd).dropCols 3) else none,
               some hdr)) ∧
    (∀ (pd2 : PayloadData) (pv cv : String),
      pd2.raw.length = pd2.Np * (pd2.Ns + 3) →
      read_sbf [("SBF", [("Points", pv), ("SFCount", cv),
          ("GlobalShift", "not a triple !")])] pd2
        = .ok (shift_array ((payloadMat pd2).takeCols 3)
                 [pd2.xshift, pd2.yshift, pd2.zshift] none,
               if pd2.Ns ≠ 0 then some ((payloadMat pd2).dropCols 3) else none,
               some [("SBF", [("Points", pv), ("SFCount", cv),
                   ("GlobalShift", "not a triple !")])])) := by
  have hro := read_sbf_ok hdr pd hlen
  have hh : read_sbf_header hdr = some hdr := by simp [read_sbf_header, hsec]
  rw [hh] at hro
  refine ⟨⟨_, _, _, hro⟩, ?_, ?_, ?_⟩
  · intro h2
    rw [hro, shift_array_no_key _ _ hsec h2, shift_array_none]
  · intro g gs h2 h3
    rw [hro, shift_array_good _ _ hsec h2 h3, shift_array_none]
  · intro pd2 pv cv hlen2
    have hro2 := read_sbf_ok [("SBF", [("Points", pv), ("SFCount", cv),
        ("GlobalShift", "not a triple !")])] pd2 hlen2
    have hsec2 : kvGet [("SBF", [("Points", pv), ("SFCount", cv),
        ("GlobalShift", "not a triple !")])] "SBF"
        = some [("Points", pv), ("SFCount", cv), ("GlobalShift", "not a triple !")] := rfl
    have hh2 : read_sbf_header [("SBF", [("Points", pv), ("SFCount", cv),
        ("GlobalShift", "not a triple !")])]
        = some [("SBF", [("Points", pv), ("SFCount", cv),
            ("GlobalShift", "not a triple !")])] := by
      simp [read_sbf_header, hsec2]
    rw [hh2] at hro2
    have hgv : kvGet [("Points", pv), ("SFCount", cv), ("GlobalShift", "not a triple !")]
        "GlobalShift" = some "not a triple !" := rfl
    have hev : evalTriple "not a triple !" = none := by decide
    rw [hro2, shift_array_bad_value _ _ hsec2 hgv hev, shift_array_none]

/-- Witness for C1: the amended theorem applied to a concrete header whose
GlobalShift is present and well-formed (the success, absent-key and
eval-raising conjuncts are instantiated alongside). -/
theorem global_shift_silently_swallowed_witness :
    (∃ pc sf cfg, read_sbf hdrW pdW0 = .ok (pc, sf, cfg)) ∧
    (kvGet [("Points", "1"), ("SFCount", "0"), ("GlobalShift", "0., 0., 0.")]
        "GlobalShift" = none →
      read_sbf hdrW pdW0
        = .ok (shift_array ((payloadMat pdW0).takeCols 3)
                 [pdW0.xshift, pdW0.yshift, pdW0.zshift] none,
               if pdW0.Ns ≠ 0 then some ((payloadMat pdW0).dropCols 3) else none,
               some hdrW)) ∧
    (∀ g gs, kvGet [("Points", "1"), ("SFCount", "0"), ("GlobalShift", "0., 0., 0.")]
        "GlobalShift" = some g → evalTriple g = some gs →
      read_sbf hdrW pdW0
        = .ok (⟨(shift_array ((payloadMat pdW0).takeCols 3)
                    [pdW0.xshift, pdW0.yshift, pdW0.zshift] none).nrows,
                (shift_array ((payloadMat pdW0).takeCols 3)
                    [pdW0.xshift, pdW0.yshift, pdW0.zshift] none).ncols,
                ((shift_array ((payloadMat pdW0).takeCols 3)
                    [pdW0.xshift, pdW0.yshift, pdW0.zshift] none).data.map
                  (fun r => rowBin (· + ·) r gs))⟩,
               if pdW0.Ns ≠ 0 then some ((payloadMat pdW0).dropCols 3) else none,
               some hdrW)) ∧
    (∀ (pd2 : PayloadData) (pv cv : String),
      pd2.raw.length = pd2.Np * (pd2.Ns + 3) →
      read_sbf [("SBF", [("Points", pv), ("SFCount", cv),
          ("GlobalShift", "not a triple !")])] pd2
        = .ok (shift_array ((payloadMat pd2).takeCols 3)
                 [pd2.xshift, pd2.yshift, pd2.zshift] none,
               if pd2.Ns ≠ 0 then some ((payloadMat pd2).dropCols 3) else none,
               some [("SBF", [("Points", pv), ("SFCount", cv),
                   ("GlobalShift", "not a triple !")])])) :=
  global_shift_silently_swallowed hdrW pdW0 _ (by simp [pdW0]) (by simp [hdrW, kvGet])
/-! ### Canonical Document headers

The data model of the format: an SBF section holding Points, SFCount and
GlobalShift followed by the contiguously numbered field keys SF1..SFS. -/

/-- Field keys SFk, SF(k+1), ... with the given names. -/
def sfNamesFrom (k : Nat) : List String → IniSection
  | [] => []
  | n :: ns => (sfKeyS (k : Int), n) :: sfNamesFrom (k + 1) ns

/-- An SBF section with the given Points, SFCount and GlobalShift values and
contiguously numbered field names. -/
def canonicalSecC (pointsV countV gsV : String) (names : List String) : IniSection :=
  [("Points", pointsV), ("SFCount", countV), ("GlobalShift", gsV)]
    ++ sfNamesFrom 1 names

/-- A config holding just a canonical SBF section. -/
def canonicalCfgC (pointsV countV gsV : String) (names : List String) : IniConfig :=
  [("SBF", canonicalSecC pointsV countV gsV names)]

/-- The name-to-index pairs of a field-name list, starting at index i. -/
def namePairsFrom (i : Int) : List String → List (String × Int)
  | [] => []
  | n :: ns => (n, i) :: namePairsFrom (i + 1) ns

theorem sfKeyIndex_Points : sfKeyIndex "Points" = none := by decide

theorem sfKeyIndex_SFCount : sfKeyIndex "SFCount" = none := by decide

theorem sfKeyIndex_GlobalShift : sfKeyIndex "GlobalShift" = none := by decide

theorem sfKeyIndex_SFcount_lower : sfKeyIndex "SFcount" = none := by decide

theorem sfKeyS_ne_Points (k : Int) : sfKeyS k ≠ "Points" :=
  sfKeyS_ne_of_none k sfKeyIndex_Points

theorem sfKeyS_ne_SFCount (k : Int) : sfKeyS k ≠ "SFCount" :=
  sfKeyS_ne_of_none k sfKeyIndex_SFCount

theorem sfKeyS_ne_GlobalShift (k : Int) : sfKeyS k ≠ "GlobalShift" :=
  sfKeyS_ne_of_none k sfKeyIndex_GlobalShift

theorem sfKeyS_ne_SFcount_lower (k : Int) : sfKeyS k ≠ "SFcount" :=
  sfKeyS_ne_of_none k sfKeyIndex_SFcount_lower

/-! ### get_name_index_dict over canonical sections -/

theorem gnid_append (a b : IniSection) :
    get_name_index_dict (a ++ b) = get_name_index_dict a ++ get_name_index_dict b := by
  unfold get_name_index_dict
  exact List.filterMap_append a b _

theorem gnid_sfNamesFrom (ns : List String) : ∀ k : Nat,
    get_name_index_dict (sfNamesFrom k ns) = namePairsFrom ((k : Int) - 1) ns := by
  induction ns with
  | nil => intro k; rfl
  | cons n ns ih =>
    intro k
    rw [sfNamesFrom]
    unfold get_name_index_dict
    rw [List.filterMap_cons]
    simp only [sfKeyIndex_sfKeyS]
    rw [show List.filterMap (fun p => (sfKeyIndex p.1).map (fun i => (p.2, i)))
          (sfNamesFrom (k + 1) ns)
        = get_name_index_dict (sfNamesFrom (k + 1) ns) from rfl]
    rw [ih (k + 1), namePairsFrom]
    have harith : ((k : Int) + 1) - 1 = ((k : Int) - 1) + 1 := by ring
    push_cast
    rw [harith]
    rfl

theorem gnid_canonical (p c g : String) (ns : List String) :
    get_name_index_dict (canonicalSecC p c g ns) = namePairsFrom 0 ns := by
  unfold canonicalSecC
  rw [gnid_append]
  have h1 : get_name_index_dict [("Points", p), ("SFCount", c), ("GlobalShift", g)] = [] := by
    unfold get_name_index_dict
    simp [List.filterMap_cons, sfKeyIndex_Points, sfKeyIndex_SFCount, sfKeyIndex_GlobalShift]
  rw [h1, gnid_sfNamesFrom ns 1]
  norm_num

/-! ### dictLookup over name pairs -/

theorem namePairsFrom_append (xs ys : List String) : ∀ i : Int,
    namePairsFrom i (xs ++ ys) = namePairsFrom i xs ++ namePairsFrom (i + xs.length) ys := by
  induction xs with
  | nil => intro i; simp [namePairsFrom]
  | cons x xs ih =>
    intro i
    have harith : (i + 1) + (xs.length : Int) = i + ((x :: xs).length : Int) := by
      rw [List.length_cons]; push_cast; ring
    rw [List.cons_append, namePairsFrom, ih (i + 1), namePairsFrom, harith]
    rfl

theorem dictLookup_append {β : Type} (a b : List (String × β)) (k : String) :
    dictLookup (a ++ b) k = (dictLookup b k).or (dictLookup a k) := by
  induction a with
  | nil => simp [dictLookup]
  | cons p a ih =>
    rw [List.cons_append, dictLookup, ih, dictLookup]
    cases h1 : dictLookup b k with
    | none => simp [Option.or]
    | some v => simp [Option.or]

theorem dictLookup_namePairs_not_mem (n : String) (ns : List String) (hn : n ∉ ns) :
    ∀ i : Int, dictLookup (namePairsFrom i ns) n = none := by
  induction ns with
  | nil => intro i; rfl
  | cons m ns ih =>
    intro i
    have hnm : n ≠ m := fun he => hn (he ▸ List.mem_cons_self m ns)
    have hn' : n ∉ ns := fun hmem => hn (List.mem_cons_of_mem m hmem)
    have hmn : m ≠ n := fun he => hnm he.symm
    rw [namePairsFrom, dictLookup, ih hn' (i + 1)]
    simp only [if_neg hmn]

/-- Last-wins dict lookup at a decomposed occurrence: when the name does not
occur to the right, the lookup returns the index of the shown occurrence. -/
theorem dictLookup_namePairs_at (pre post : List String) (a : String) (i : Int)
    (hpost : a ∉ post) :
    dictLookup (namePairsFrom i (pre ++ a :: post)) a = some (i + pre.length) := by
  rw [namePairsFrom_append, dictLookup_append]
  have h2 : dictLookup (namePairsFrom (i + pre.length) (a :: post)) a
      = some (i + pre.length) := by
    rw [namePairsFrom, dictLookup, dictLookup_namePairs_not_mem a post hpost, if_pos rfl]
  rw [h2]
  rfl

/-! ### kvGet / kvSet / kvDel over canonical sections -/

theorem kvGet_append {β : Type} (a b : List (String × β)) (k : String) :
    kvGet (a ++ b) k = (kvGet a k).or (kvGet b k) := by
  induction a with
  | nil => simp [kvGet]
  | cons p a ih =>
    rw [List.cons_append, kvGet, ih, kvGet]
    by_cases hp : p.1 = k
    · simp [hp, Option.or]
    · simp [hp, Option.or]

/-- The three fixed keys of a canonical section miss every SF key. -/
theorem kvGet_prefix_sfKeyS (p c g : String) (j : Int) :
    kvGet [("Points", p), ("SFCount", c), ("GlobalShift", g)] (sfKeyS j) = none := by
  have h1 : ("Points" : String) ≠ sfKeyS j := Ne.symm (sfKeyS_ne_Points j)
  have h2 : ("SFCount" : String) ≠ sfKeyS j := Ne.symm (sfKeyS_ne_SFCount j)
  have h3 : ("GlobalShift" : String) ≠ sfKeyS j := Ne.symm (sfKeyS_ne_GlobalShift j)
  simp [kvGet, h1, h2, h3]

theorem kvGet_canonical_Points (p c g : String) (ns : List String) :
    kvGet (canonicalSecC p c g ns) "Points" = some p := by
  simp [canonicalSecC, kvGet]

theorem kvGet_canonical_SFCount (p c g : String) (ns : List String) :
    kvGet (canonicalSecC p c g ns) "SFCount" = some c := by
  simp [canonicalSecC, kvGet]

theorem kvGet_canonical_GlobalShift (p c g : String) (ns : List String) :
    kvGet (canonicalSecC p c g ns) "GlobalShift" = some g := by
  simp [canonicalSecC, kvGet]

theorem kvGet_canonical_sfKeyS (p c g : String) (ns : List String) (j : Int) :
    kvGet (canonicalSecC p c g ns) (sfKeyS j) = kvGet (sfNamesFrom 1 ns) (sfKeyS j) := by
  unfold canonicalSecC
  rw [kvGet_append, kvGet_prefix_sfKeyS]
  rfl

/-- kvGet for an SF key below the numbering range of the section. -/
theorem kvGet_sfNamesFrom_lt (ns : List String) : ∀ (k : Nat) (j : Int), j < (k : Int) →
    kvGet (sfNamesFrom k ns) (sfKeyS j) = none := by
  induction ns with
  | nil => intro k j _; rfl
  | cons n ns ih =>
    intro k j hj
    rw [sfNamesFrom, kvGet, if_neg (fun he => by have := sfKeyS_inj he; omega),
      ih (k + 1) j (by push_cast; omega)]

/-- kvGet for an SF key above the numbering range of the section. -/
theorem kvGet_sfNamesFrom_ge (ns : List String) : ∀ (k : Nat) (j : Int),
    ((k + ns.length : Nat) : Int) ≤ j →
    kvGet (sfNamesFrom k ns) (sfKeyS j) = none := by
  induction ns with
  | nil => intro k j _; rfl
  | cons n ns ih =>
    intro k j hj
    rw [List.length_cons] at hj
    push_cast at hj
    rw [sfNamesFrom, kvGet, if_neg (fun he => by have := sfKeyS_inj he; omega),
      ih (k + 1) j (by push_cast; omega)]

/-- kvGet inside the numbering range returns the corresponding name. -/
theorem kvGet_sfNamesFrom_at (ns : List String) : ∀ (k j : Nat), k ≤ j → j < k + ns.length →
    kvGet (sfNamesFrom k ns) (sfKeyS (j : Int)) = some (ns.getD (j - k) "") := by
  induction ns with
  | nil => intro k j _ h2; simp at h2; omega
  | cons n ns ih =>
    intro k j h1 h2
    rw [sfNamesFrom, kvGet]
    by_cases hkj : k = j
    · subst hkj
      rw [if_pos rfl]
      simp
    · rw [if_neg (fun he => by have := sfKeyS_inj he; omega),
        ih (k + 1) j (by omega) (by simp at h2 ⊢; omega)]
      have hd : j - k = (j - (k + 1)) + 1 := by omega
      rw [hd]
      simp

/-- kvSet with a key absent from the left part passes to the right part. -/
theorem kvSet_append_right {β : Type} (a b : List (String × β)) (k : String) (v : β)
    (h : kvGet a k = none) : kvSet (a ++ b) k v = a ++ kvSet b k v := by
  induction a with
  | nil => rfl
  | cons p a ih =>
    rw [kvGet] at h
    by_cases hp : p.1 = k
    · rw [if_pos hp] at h; cases h
    · rw [if_neg hp] at h
      rw [List.cons_append, kvSet, if_neg hp, ih h]
      rfl

/-- kvSet of an SF key inside the numbering range replaces that name. -/
theorem kvSet_sfNamesFrom_at (ns : List String) : ∀ (k j : Nat) (v : String),
    k ≤ j → j < k + ns.length →
    kvSet (sfNamesFrom k ns) (sfKeyS (j : Int)) v = sfNamesFrom k (ns.set (j - k) v) := by
  induction ns with
  | nil => intro k j v _ h2; simp at h2; omega
  | cons n ns ih =>
    intro k j v h1 h2
    rw [sfNamesFrom, kvSet]
    by_cases hkj : k = j
    · subst hkj
      rw [if_pos rfl]
      simp [sfNamesFrom]
    · rw [if_neg (fun he => by have := sfKeyS_inj he; omega),
        ih (k + 1) j v (by omega) (by simp at h2 ⊢; omega)]
      have hd : j - k = (j - (k + 1)) + 1 := by omega
      rw [hd]
      simp [sfNamesFrom]

/-- Setting an element at the boundary of a decomposition. -/
theorem list_set_at_append (pre post : List String) (a b : String) :
    (pre ++ a :: post).set pre.length b = pre ++ b :: post := by
  induction pre with
  | nil => rfl
  | cons x pre ih => simp [List.set, ih]

theorem sfNamesFrom_append (xs ys : List String) : ∀ k : Nat,
    sfNamesFrom k (xs ++ ys) = sfNamesFrom k xs ++ sfNamesFrom (k + xs.length) ys := by
  induction xs with
  | nil => intro k; simp [sfNamesFrom]
  | cons x xs ih =>
    intro k
    rw [List.cons_append, sfNamesFrom, ih (k + 1), sfNamesFrom]
    rw [show (k + 1) + xs.length = k + (x :: xs).length by simp; omega]
    rfl

/-- setSBF on a single-section config replaces the section. -/
theorem setSBF_single (sec newSec : IniSection) :
    setSBF [("SBF", sec)] newSec = [("SBF", newSec)] := by
  simp [setSBF, updSBF]

theorem getSBFE_single (sec : IniSection) :
    getSBFE [("SBF", sec)] = .ok sec := by
  simp [getSBFE, kvGet]

/-- Appending a fresh key. -/
theorem kvSet_absent {β : Type} (l : List (String × β)) (k : String) (v : β)
    (h : kvGet l k = none) : kvSet l k v = l ++ [(k, v)] := by
  induction l with
  | nil => rfl
  | cons p l ih =>
    rw [kvGet] at h
    by_cases hp : p.1 = k
    · rw [if_pos hp] at h; cases h
    · rw [if_neg hp] at h
      rw [kvSet, if_neg hp, ih h]
      rfl

theorem kvSet_canonical_Points (p c g v : String) (ns : List String) :
    kvSet (canonicalSecC p c g ns) "Points" v = canonicalSecC v c g ns := by
  simp [canonicalSecC, kvSet]

theorem kvSet_canonical_SFCount (p c g v : String) (ns : List String) :
    kvSet (canonicalSecC p c g ns) "SFCount" v = canonicalSecC p v g ns := by
  simp [canonicalSecC, kvSet]

/-- The SF key one past the numbering range is absent from a canonical
section. -/
theorem kvGet_canonical_fresh (p c g : String) (ns : List String) :
    kvGet (canonicalSecC p c g ns) (sfKeyS ((ns.length : Int) + 1)) = none := by
  rw [kvGet_canonical_sfKeyS]
  exact kvGet_sfNamesFrom_ge ns 1 _ (by push_cast; omega)

/-- Appending one more field key at the end of the numbering. -/
theorem sfNamesFrom_snoc (ns : List String) (name : String) :
    sfNamesFrom 1 ns ++ [(sfKeyS ((ns.length : Int) + 1), name)]
      = sfNamesFrom 1 (ns ++ [name]) := by
  rw [sfNamesFrom_append ns [name] 1]
  show _ = sfNamesFrom 1 ns ++ [(sfKeyS ((1 + ns.length : Nat) : Int), name)]
  have : ((1 + ns.length : Nat) : Int) = (ns.length : Int) + 1 := by push_cast; ring
  rw [this]

/-- Computation of add_sf on a canonical Document header: the column is
appended at the end, the key SF(S+1) is appended with the given name and
SFCount becomes S+1 - whether or not the name is already present. -/
theorem add_sf_canonical (name p c g : String) (ns : List String) (sf : Mat) (col : List ℚ)
    (hc : pyIntOptL c.data = some (ns.length : Int))
    (hlen : col.length = sf.nrows) :
    add_sf name sf (canonicalCfgC p c g ns) col
      = .ok (sf.addCol col,
             canonicalCfgC p (intRepr ((ns.length : Int) + 1)) g (ns ++ [name])) := by
  have h0 : getSBFE (canonicalCfgC p c g ns) = .ok (canonicalSecC p c g ns) :=
    getSBFE_single _
  have h1 := kvGet_canonical_SFCount p c g ns
  have h2 : kvSet (canonicalSecC p c g ns) (sfKeyS ((ns.length : Int) + 1)) name
      = canonicalSecC p c g ns ++ [(sfKeyS ((ns.length : Int) + 1), name)] :=
    kvSet_absent _ _ _ (kvGet_canonical_fresh p c g ns)
  have h3 : canonicalSecC p c g ns ++ [(sfKeyS ((ns.length : Int) + 1), name)]
      = canonicalSecC p c g (ns ++ [name]) := by
    unfold canonicalSecC
    rw [List.append_assoc, sfNamesFrom_snoc]
  unfold add_sf
  rw [h0]
  simp only [bind, Except.instMonad, Except.bind, h1, hc]
  rw [h2, h3, kvSet_canonical_SFCount, if_pos hlen]
  rw [show setSBF (canonicalCfgC p c g ns) (canonicalSecC p (intRepr ((ns.length : Int) + 1)) g
        (ns ++ [name]))
      = [("SBF", canonicalSecC p (intRepr ((ns.length : Int) + 1)) g (ns ++ [name]))] from
    setSBF_single _ _]
  rfl

/-! ### C8 -/

/-- C8 counterexample: adding the field name a to a Document that already
contains a field a succeeds - no DuplicateFieldName failure - and changes
the Document: the column is appended, the key SF3 is added with the
duplicate name and SFCount is incremented. -/
theorem add_duplicate_counterexample :
    add_sf "a" (⟨1, 2, [[7, 8]]⟩ : Mat) (canonicalCfgC "1" "2" "0., 0., 0." ["x", "a"]) [9]
      = .ok (⟨1, 3, [[7, 8, 9]]⟩,
             canonicalCfgC "1" "3" "0., 0., 0." ["x", "a", "a"]) :=
  add_sf_canonical "a" "1" "2" "0., 0., 0." ["x", "a"] ⟨1, 2, [[7, 8]]⟩ [9]
    (by decide) (by decide)

/-- C8 (amended): add_sf performs no duplicate check of any kind: for every
field name - already present in the Document or not - it appends the new
column at the end (index S), appends the header key SF(S+1) holding that
name, and increments SFCount to S+1; when the name is fresh this is the
behaviour the claim describes, and when it is a duplicate the same thing
happens, yielding two SF keys with the same name. -/
theorem add_never_checks_duplicates (name p c g : String) (ns : List String)
    (sf : Mat) (col : List ℚ)
    (hc : pyIntOptL c.data = some (ns.length : Int))
    (hlen : col.length = sf.nrows) :
    add_sf name sf (canonicalCfgC p c g ns) col
      = .ok (sf.addCol col,
             canonicalCfgC p (intRepr ((ns.length : Int) + 1)) g (ns ++ [name])) :=
  add_sf_canonical name p c g ns sf col hc hlen

/-- Witness for C8: the amended theorem applied to a Document already
containing the added name. -/
theorem add_never_checks_duplicates_witness :
    add_sf "a" (⟨2, 1, [[10], [20]]⟩ : Mat) (canonicalCfgC "2" "1" "0., 0., 0." ["a"]) [5, 6]
      = .ok ((⟨2, 1, [[10], [20]]⟩ : Mat).addCol [5, 6],
             canonicalCfgC "2" (intRepr ((1 : Int) + 1)) "0., 0., 0." ["a", "a"]) :=
  add_never_checks_duplicates "a" "2" "1" "0., 0., 0." ["a"] ⟨2, 1, [[10], [20]]⟩ [5, 6]
    (by decide) (by decide)

/-! ### C9 -/

/-- Replacing the value of an SF key inside the numbering range of a
canonical section. -/
theorem kvSet_canonical_sfKeyS_at (p c g v : String) (ns : List String) (j : Nat)
    (h1 : 1 ≤ j) (h2 : j < 1 + ns.length) :
    kvSet (canonicalSecC p c g ns) (sfKeyS (j : Int)) v
      = canonicalSecC p c g (ns.set (j - 1) v) := by
  unfold canonicalSecC
  rw [kvSet_append_right _ _ _ _ (kvGet_prefix_sfKeyS p c g (j : Int)),
    kvSet_sfNamesFrom_at ns 1 j v h1 h2]

/-- C9: rename preserves the index map: renaming the field a (at 0-based
index pre.length) to a fresh name b rewrites exactly that header value -
every other field keeps its name and position, and rename_sf never touches
any column data (it does not even receive the matrix) - after which the
lookup of b yields the prior index of a and the lookup of a fails (the
Python dict lookup raises KeyError). -/
theorem rename_preserves_index_map (a b p c g : String) (pre post : List String)
    (ha_pre : a ∉ pre) (ha_post : a ∉ post) (hb : b ∉ pre ++ a :: post) :
    rename_sf a b (canonicalCfgC p c g (pre ++ a :: post))
        = .ok (canonicalCfgC p c g (pre ++ b :: post))
      ∧ dictLookup (get_name_index_dict (canonicalSecC p c g (pre ++ a :: post))) a
          = some (pre.length : Int)
      ∧ dictLookup (get_name_index_dict (canonicalSecC p c g (pre ++ b :: post))) b
          = some (pre.length : Int)
      ∧ dictLookup (get_name_index_dict (canonicalSecC p c g (pre ++ b :: post))) a
          = none := by
  have hb_post : b ∉ post := by
    intro hmem; exact hb (List.mem_append.mpr (Or.inr (List.mem_cons_of_mem a hmem)))
  have hab : a ≠ b := by
    intro he; exact hb (he ▸ List.mem_append.mpr (Or.inr (List.mem_cons_self a post)))
  have hlk : dictLookup (get_name_index_dict (canonicalSecC p c g (pre ++ a :: post))) a
      = some (pre.length : Int) := by
    rw [gnid_canonical, dictLookup_namePairs_at pre post a 0 ha_post, zero_add]
  have hlkb : dictLookup (get_name_index_dict (canonicalSecC p c g (pre ++ b :: post))) b
      = some (pre.length : Int) := by
    rw [gnid_canonical, dictLookup_namePairs_at pre post b 0 hb_post, zero_add]
  have hlka : dictLookup (get_name_index_dict (canonicalSecC p c g (pre ++ b :: post))) a
      = none := by
    rw [gnid_canonical]
    refine dictLookup_namePairs_not_mem a _ ?_ 0
    intro hmem
    rcases List.mem_append.mp hmem with h | h
    · exact ha_pre h
    · rcases List.mem_cons.mp h with h | h
      · exact hab h
      · exact ha_post h
  refine ⟨?_, hlk, hlkb, hlka⟩
  have h0 : getSBFE (canonicalCfgC p c g (pre ++ a :: post))
      = .ok (canonicalSecC p c g (pre ++ a :: post)) := getSBFE_single _
  unfold rename_sf
  rw [h0]
  simp only [bind, Except.instMonad, Except.bind, hlk]
  have hcast : (pre.length : Int) + 1 = ((pre.length + 1 : Nat) : Int) := by push_cast; ring
  rw [hcast, kvSet_canonical_sfKeyS_at p c g b (pre ++ a :: post) (pre.length + 1)
    (by omega) (by simp; omega)]
  have hset : (pre ++ a :: post).set (pre.length + 1 - 1) b = pre ++ b :: post := by
    have : pre.length + 1 - 1 = pre.length := by omega
    rw [this, list_set_at_append]
  rw [hset]
  rw [show canonicalCfgC p c g (pre ++ a :: post)
      = [("SBF", canonicalSecC p c g (pre ++ a :: post))] from rfl, setSBF_single]
  rfl

/-- Witness for C9: renaming a to b in a two-field Document. -/
theorem rename_preserves_index_map_witness :
    rename_sf "a" "b" (canonicalCfgC "1" "2" "0., 0., 0." (["x"] ++ "a" :: []))
        = .ok (canonicalCfgC "1" "2" "0., 0., 0." (["x"] ++ "b" :: []))
      ∧ dictLookup (get_name_index_dict (canonicalSecC "1" "2" "0., 0., 0."
          (["x"] ++ "a" :: []))) "a" = some ((["x"] : List String).length : Int)
      ∧ dictLookup (get_name_index_dict (canonicalSecC "1" "2" "0., 0., 0."
          (["x"] ++ "b" :: []))) "b" = some ((["x"] : List String).length : Int)
      ∧ dictLookup (get_name_index_dict (canonicalSecC "1" "2" "0., 0., 0."
          (["x"] ++ "b" :: []))) "a" = none :=
  rename_preserves_index_map "a" "b" "1" "2" "0., 0., 0." ["x"] []
    (by decide) (by decide) (by decide)

/-! ### C7: remove after add -/

theorem kvDel_append {β : Type} (a b : List (String × β)) (k : String) :
    kvDel (a ++ b) k = kvDel a k ++ kvDel b k := by
  induction a with
  | nil => rfl
  | cons p a ih =>
    rw [List.cons_append, kvDel, kvDel]
    by_cases hp : p.1 = k
    · rw [if_pos hp, if_pos hp, ih]
    · rw [if_neg hp, if_neg hp, ih]
      rfl

theorem kvDel_of_absent {β : Type} (a : List (String × β)) (k : String)
    (h : kvGet a k = none) : kvDel a k = a := by
  induction a with
  | nil => rfl
  | cons p a ih =>
    rw [kvGet] at h
    by_cases hp : p.1 = k
    · rw [if_pos hp] at h; cases h
    · rw [if_neg hp] at h
      rw [kvDel, if_neg hp, ih h]

theorem updSBF_single (sec : IniSection) (f : IniSection → IniSection) :
    updSBF [("SBF", sec)] f = [("SBF", f sec)] := by
  simp [updSBF]

theorem pyRange_empty (a : Int) : pyRange a a = [] := by
  unfold pyRange
  rw [show (a - a).toNat = 0 from by omega]
  rfl

theorem mem_pyRangeGo (n : Nat) : ∀ (x idx : Int),
    (idx ∈ pyRangeGo n x ↔ x ≤ idx ∧ idx < x + n) := by
  induction n with
  | zero =>
    intro x idx
    rw [show pyRangeGo 0 x = [] from rfl]
    simp only [List.not_mem_nil, false_iff]
    omega
  | succ n ih =>
    intro x idx
    rw [pyRangeGo, List.mem_cons, ih (x + 1) idx]
    push_cast
    omega

theorem mem_pyRange {a b idx : Int} : idx ∈ pyRange a b ↔ a ≤ idx ∧ idx < b := by
  unfold pyRange
  rw [mem_pyRangeGo]
  omega

/-- The first renumbering loop of remove_sf is a no-op on a config whose
SBF section already holds the value being copied at every visited key. -/
theorem renumLoopA_noop (sec : IniSection) (idxs : List Int) (cfg : IniConfig)
    (h : ∀ idx ∈ idxs, ∃ v, kvGet sec (sfKeyS idx) = some v
          ∧ updSBF cfg (fun s => kvSet s (sfKeyS idx) v) = cfg) :
    renumLoopA sec idxs cfg = Except.ok cfg := by
  induction idxs with
  | nil => rfl
  | cons idx rest ih =>
    obtain ⟨v, hv1, hv2⟩ := h idx (List.mem_cons_self idx rest)
    unfold renumLoopA
    rw [List.foldlM_cons, hv1]
    simp only [bind, Except.instMonad, Except.bind, pure, Except.pure, hv2]
    exact ih (fun j hj => h j (List.mem_cons_of_mem idx hj))

theorem renumLoopB_nil (sec : IniSection) (cfg : IniConfig) :
    renumLoopB sec [] cfg = Except.ok cfg := rfl

theorem eraseIdx_append_length (r : List ℚ) (c : ℚ) :
    (r ++ [c]).eraseIdx r.length = r := by
  induction r with
  | nil => rfl
  | cons x r ih => simp [List.eraseIdx, ih]

/-- Dropping the appended column recovers the original rows. -/
theorem rows_snoc_erase (rows : List (List ℚ)) (col : List ℚ) (C : Nat)
    (hr : ∀ r ∈ rows, r.length = C) (hl : rows.length ≤ col.length) :
    ((rows.zip col).map (fun rc => rc.1 ++ [rc.2])).map (fun r => r.eraseIdx C) = rows := by
  induction rows generalizing col with
  | nil => rfl
  | cons r rows ih =>
    cases col with
    | nil => simp at hl
    | cons c col =>
      have hrlen : r.length = C := hr r (List.mem_cons_self r rows)
      have he : (r ++ [c]).eraseIdx C = r := by
        rw [← hrlen]
        exact eraseIdx_append_length r c
      rw [List.zip_cons_cons, List.map_cons, List.map_cons, he,
        ih col (fun x hx => hr x (List.mem_cons_of_mem r hx)) (by simpa using hl)]

/-- np.delete of the column just appended by np.c_ recovers the matrix. -/
theorem Mat.delCol_addCol (sf : Mat) (col : List ℚ) (hwf : sf.WF)
    (hlen : col.length = sf.nrows) :
    (sf.addCol col).delCol sf.ncols = sf := by
  obtain ⟨nr, nc, data⟩ := sf
  have hd1 : data.length = nr := hwf.1
  have hd2 : ∀ r ∈ data, r.length = nc := hwf.2
  have hcl : col.length = nr := hlen
  simp only [Mat.addCol, Mat.delCol, Mat.mk.injEq]
  exact ⟨trivial, by omega, rows_snoc_erase data col nc hd2 (by omega)⟩

theorem npColIndex_last (n : Nat) : npColIndex (n : Int) (n + 1) = .ok n := by
  rw [npColIndex, if_pos ⟨by omega, by omega⟩]
  norm_num

/-- Computation of remove_sf for the last field of a canonical header: the
last column and the key SF(S+1) are removed, SFCount is decremented back,
and the renumbering loops copy the unchanged keys SF1..SFS onto themselves. -/
theorem remove_sf_last (name p g : String) (ns : List String) (M : Mat)
    (hM : M.ncols = ns.length + 1) :
    remove_sf name M (canonicalCfgC p (intRepr ((ns.length : Int) + 1)) g (ns ++ [name]))
      = .ok (M.delCol ns.length, canonicalCfgC p (intRepr (ns.length : Int)) g ns) := by
  have h0 : getSBFE (canonicalCfgC p (intRepr ((ns.length : Int) + 1)) g (ns ++ [name]))
      = .ok (canonicalSecC p (intRepr ((ns.length : Int) + 1)) g (ns ++ [name])) :=
    getSBFE_single _
  have hlk : dictLookup (get_name_index_dict
        (canonicalSecC p (intRepr ((ns.length : Int) + 1)) g (ns ++ [name]))) name
      = some (ns.length : Int) := by
    rw [gnid_canonical, dictLookup_namePairs_at ns [] name 0 (by simp), zero_add]
  have hidx : npColIndex (ns.length : Int) M.ncols = .ok ns.length := by
    rw [hM]; exact npColIndex_last ns.length
  have hsc : kvGet (canonicalSecC p (intRepr ((ns.length : Int) + 1)) g (ns ++ [name]))
      "SFCount" = some (intRepr ((ns.length : Int) + 1)) :=
    kvGet_canonical_SFCount _ _ _ _
  have hparse : pyIntOptL (intRepr ((ns.length : Int) + 1)).data
      = some ((ns.length : Int) + 1) := pyInt_intRepr _
  have hcast1 : (ns.length : Int) + 1 - 1 = (ns.length : Int) := by ring
  have hkey : sfKeyS ((1 + ns.length : Nat) : Int) = sfKeyS ((ns.length : Int) + 1) := by
    congr 1
    push_cast
    ring
  have hsecB : kvSet (canonicalSecC p (intRepr ((ns.length : Int) + 1)) g (ns ++ [name]))
      "SFCount" (intRepr ((ns.length : Int) + 1 - 1))
      = canonicalSecC p (intRepr ((ns.length : Int))) g (ns ++ [name]) := by
    rw [kvSet_canonical_SFCount, hcast1]
  have hdel : kvDel (canonicalSecC p (intRepr ((ns.length : Int))) g (ns ++ [name]))
      (sfKeyS ((ns.length : Int) + 1))
      = canonicalSecC p (intRepr ((ns.length : Int))) g ns := by
    unfold canonicalSecC
    rw [kvDel_append, kvDel_of_absent _ _ (kvGet_prefix_sfKeyS _ _ _ _),
      sfNamesFrom_append ns [name] 1, kvDel_append,
      kvDel_of_absent _ _ (kvGet_sfNamesFrom_ge ns 1 _ (by push_cast; omega))]
    rw [show sfNamesFrom (1 + ns.length) [name]
        = [(sfKeyS ((1 + ns.length : Nat) : Int), name)] from rfl]
    rw [hkey]
    rw [show kvDel [(sfKeyS ((ns.length : Int) + 1), name)] (sfKeyS ((ns.length : Int) + 1))
        = [] from by rw [kvDel, if_pos rfl]; rfl]
    simp
  have hcfg2 : updSBF (setSBF (canonicalCfgC p (intRepr ((ns.length : Int) + 1)) g (ns ++ [name]))
        (kvSet (canonicalSecC p (intRepr ((ns.length : Int) + 1)) g (ns ++ [name])) "SFCount"
          (intRepr ((ns.length : Int) + 1 - 1))))
        (fun s => kvDel s (sfKeyS ((ns.length : Int) + 1)))
      = canonicalCfgC p (intRepr ((ns.length : Int))) g ns := by
    rw [hsecB]
    rw [show canonicalCfgC p (intRepr ((ns.length : Int) + 1)) g (ns ++ [name])
        = [("SBF", canonicalSecC p (intRepr ((ns.length : Int) + 1)) g (ns ++ [name]))] from rfl]
    rw [setSBF_single, updSBF_single, hdel]
    rfl
  have hloop1 : renumLoopA (canonicalSecC p (intRepr ((ns.length : Int) + 1)) g (ns ++ [name]))
      (pyRange 1 ((ns.length : Int) + 1))
      (canonicalCfgC p (intRepr ((ns.length : Int))) g ns)
      = Except.ok (canonicalCfgC p (intRepr ((ns.length : Int))) g ns) := by
    apply renumLoopA_noop
    intro idx hmem
    rw [mem_pyRange] at hmem
    obtain ⟨jn, rfl⟩ : ∃ jn : Nat, idx = (jn : Int) := ⟨idx.toNat, by omega⟩
    have hj1 : 1 ≤ jn := by omega
    have hjlen : jn ≤ ns.length := by omega
    have hj2 : jn < 1 + (ns ++ [name]).length := by simp; omega
    have hj3 : jn - 1 < ns.length := by omega
    refine ⟨ns.getD (jn - 1) "", ?_, ?_⟩
    · rw [kvGet_canonical_sfKeyS, kvGet_sfNamesFrom_at (ns ++ [name]) 1 jn hj1 hj2,
        List.getD_append ns [name] "" (jn - 1) hj3]
    · rw [show canonicalCfgC p (intRepr ((ns.length : Int))) g ns
          = [("SBF", canonicalSecC p (intRepr ((ns.length : Int))) g ns)] from rfl,
        updSBF_single]
      rw [kvSet_same (by
        rw [kvGet_canonical_sfKeyS, kvGet_sfNamesFrom_at ns 1 jn hj1 (by omega)])]
  unfold remove_sf
  rw [h0]
  simp only [bind, Except.instMonad, Except.bind, hlk, hidx, hsc, hparse]
  rw [hcfg2, hloop1]
  simp only []
  rw [pyRange_empty, renumLoopB_nil]
  rfl

/-- C7: add/remove inverse: for every canonical Document D and every field
name not already present, removing that field immediately after adding it
reproduces D exactly - the matrix columns, the field names SF1..SFS with
their order, the SFCount value and the Points value all return to their
prior state. -/
theorem add_remove_inverse (name p g : String) (ns : List String) (sf : Mat) (col : List ℚ)
    (hfresh : name ∉ ns) (hwf : sf.WF) (hcols : sf.ncols = ns.length)
    (hlen : col.length = sf.nrows) :
    (add_sf name sf (canonicalCfgC p (intRepr (ns.length : Int)) g ns) col).bind
        (fun x => remove_sf name x.1 x.2)
      = .ok (sf, canonicalCfgC p (intRepr (ns.length : Int)) g ns) := by
  rw [add_sf_canonical name p (intRepr (ns.length : Int)) g ns sf col (pyInt_intRepr _) hlen]
  show remove_sf name (sf.addCol col)
      (canonicalCfgC p (intRepr ((ns.length : Int) + 1)) g (ns ++ [name]))
    = .ok (sf, canonicalCfgC p (intRepr (ns.length : Int)) g ns)
  rw [remove_sf_last name p g ns (sf.addCol col) (by simp [Mat.addCol, hcols])]
  rw [show (sf.addCol col).delCol ns.length = sf from by
    rw [← hcols]; exact Mat.delCol_addCol sf col hwf hlen]

/-- Witness for C7: adding then removing the fresh field foo on a concrete
two-field Document. -/
theorem add_remove_inverse_witness :
    (add_sf "foo" (⟨1, 2, [[1, 2]]⟩ : Mat)
        (canonicalCfgC "1" (intRepr ((["a", "b"] : List String).length : Int)) "0., 0., 0."
          ["a", "b"]) [9]).bind (fun x => remove_sf "foo" x.1 x.2)
      = .ok (⟨1, 2, [[1, 2]]⟩,
             canonicalCfgC "1" (intRepr ((["a", "b"] : List String).length : Int)) "0., 0., 0."
               ["a", "b"]) :=
  add_remove_inverse "foo" "1" "0., 0., 0." ["a", "b"] ⟨1, 2, [[1, 2]]⟩ [9]
    (by decide) (by decide) (by decide) (by decide)

/-! ### The value write_sbf computes on the plain path -/

/-- The array pcOrig = pc - globalShift computed inside write_sbf. -/
def pcMinusGS (pc : Mat) (gs : List ℚ) : Mat :=
  ⟨pc.nrows, pc.ncols, pc.data.map (fun r => rowBin (· - ·) r gs)⟩

/-- The float32 coordinate rows stored by write_sbf: the residual
pcOrig - mean(pcOrig) narrowed by one application of f32 per cell. -/
def writeCoords (f32 : ℚ → ℚ) (pc : Mat) (gs : List ℚ) : List (List ℚ) :=
  (pcMinusGS pc gs).data.map
    (fun r => (rowBin (· - ·) r (colMeans (pcMinusGS pc gs))).map f32)

/-- Computation of write_sbf with a configuration, scalar fields present and
both extra features off. -/
theorem write_sbf_ok_some (f32 : ℚ → ℚ) (pc m : Mat) (cf : IniConfig) (sec : IniSection)
    (gsStr : String) (gs : List ℚ)
    (hsec : kvGet cf "SBF" = some sec)
    (hgs : kvGet sec "GlobalShift" = some gsStr)
    (hev : evalTriple gsStr = some gs)
    (hpc3 : pc.ncols = 3)
    (hm0 : m.ncols ≠ 0)
    (hmr : m.nrows = pc.nrows) :
    write_sbf f32 pc (some m) (some cf) false none
      = .ok (updSBF (updSBF cf (fun s => kvSet s "Points" (natRepr pc.nrows)))
               (fun s => kvSet s "SFCount" (natRepr m.ncols)),
             { flag := [42, 42], Np := pc.nrows, Ns := m.ncols,
               xshift := (colMeans (pcMinusGS pc gs)).getD 0 0,
               yshift := (colMeans (pcMinusGS pc gs)).getD 1 0,
               zshift := (colMeans (pcMinusGS pc gs)).getD 2 0,
               raw := (((writeCoords f32 pc gs).zip m.data).map
                   (fun rc => rc.1 ++ rc.2.map f32)).flatten }) := by
  have hsec2 : kvGet (updSBF (updSBF cf (fun s => kvSet s "Points" (natRepr pc.nrows)))
        (fun s => kvSet s "SFCount" (natRepr m.ncols))) "SBF"
      = some (kvSet (kvSet sec "Points" (natRepr pc.nrows)) "SFCount" (natRepr m.ncols)) := by
    rw [kvGet_updSBF, kvGet_updSBF, hsec]
    rfl
  have hgs2 : kvGet (kvSet (kvSet sec "Points" (natRepr pc.nrows)) "SFCount"
        (natRepr m.ncols)) "GlobalShift" = some gsStr := by
    rw [kvGet_kvSet_other _ _ (by decide), kvGet_kvSet_other _ _ (by decide), hgs]
  unfold write_sbf
  simp only [hsec, bind, Except.instMonad, Except.bind, Bool.false_eq_true, if_false,
    pure, Except.pure, getSBFE, hsec2, hgs2, hev, hpc3]
  rw [if_neg (by omega : ¬(3 ≠ 3)), if_pos hm0, if_pos ⟨trivial, hmr⟩]
  rw [show (⟨pc.nrows, 3, List.map (fun r => rowBin (· - ·) r gs) pc.data⟩ : Mat)
      = pcMinusGS pc gs from by unfold pcMinusGS; rw [hpc3]]
  rfl

/-- Computation of write_sbf with a configuration, no scalar fields and
both extra features off. -/
theorem write_sbf_ok_nosf (f32 : ℚ → ℚ) (pc : Mat) (cf : IniConfig) (sec : IniSection)
    (gsStr : String) (gs : List ℚ)
    (hsec : kvGet cf "SBF" = some sec)
    (hgs : kvGet sec "GlobalShift" = some gsStr)
    (hev : evalTriple gsStr = some gs)
    (hpc3 : pc.ncols = 3) :
    write_sbf f32 pc none (some cf) false none
      = .ok (updSBF (updSBF cf (fun s => kvSet s "Points" (natRepr pc.nrows)))
               (fun s => kvSet s "SFCount" (natRepr 0)),
             { flag := [42, 42], Np := pc.nrows, Ns := 0,
               xshift := (colMeans (pcMinusGS pc gs)).getD 0 0,
               yshift := (colMeans (pcMinusGS pc gs)).getD 1 0,
               zshift := (colMeans (pcMinusGS pc gs)).getD 2 0,
               raw := (writeCoords f32 pc gs).flatten }) := by
  have hsec2 : kvGet (updSBF (updSBF cf (fun s => kvSet s "Points" (natRepr pc.nrows)))
        (fun s => kvSet s "SFCount" (natRepr 0))) "SBF"
      = some (kvSet (kvSet sec "Points" (natRepr pc.nrows)) "SFCount" (natRepr 0)) := by
    rw [kvGet_updSBF, kvGet_updSBF, hsec]
    rfl
  have hgs2 : kvGet (kvSet (kvSet sec "Points" (natRepr pc.nrows)) "SFCount"
        (natRepr 0)) "GlobalShift" = some gsStr := by
    rw [kvGet_kvSet_other _ _ (by decide), kvGet_kvSet_other _ _ (by decide), hgs]
  unfold write_sbf
  simp only [hsec, bind, Except.instMonad, Except.bind, Bool.false_eq_true, if_false,
    pure, Except.pure, getSBFE, hsec2, hgs2, hev, hpc3]
  rw [if_neg (by omega : ¬(3 ≠ 3))]
  simp only [ne_eq, not_true_eq_false, if_neg, reduceIte]
  rw [show (⟨pc.nrows, 3, List.map (fun r => rowBin (· - ·) r gs) pc.data⟩ : Mat)
      = pcMinusGS pc gs from by unfold pcMinusGS; rw [hpc3]]
  rfl

/-! ### Length and entry bookkeeping for the round trip -/

theorem flatten_const_length (rows : List (List ℚ)) (k : Nat)
    (h : ∀ r ∈ rows, r.length = k) : rows.flatten.length = rows.length * k := by
  induction rows with
  | nil => simp
  | cons r rows ih =>
    rw [List.flatten_cons, List.length_append, h r (List.mem_cons_self r rows),
      ih (fun x hx => h x (List.mem_cons_of_mem r hx)), List.length_cons]
    ring

theorem chunkRows_flatten (k : Nat) (rows : List (List ℚ)) (hk : 0 < k)
    (h : ∀ r ∈ rows, r.length = k) : chunkRows k rows.flatten = rows := by
  induction rows with
  | nil =>
    rw [List.flatten_nil, chunkRows]
    simp
  | cons r rows ih =>
    have hr : r.length = k := h r (List.mem_cons_self r rows)
    have hrne : r ≠ [] := by
      intro he
      rw [he] at hr
      simp at hr
      omega
    rw [List.flatten_cons, chunkRows, dif_neg (by
      push_neg
      exact ⟨by omega, by simp [hrne]⟩)]
    rw [List.take_left' hr, List.drop_left' hr,
      ih (fun x hx => h x (List.mem_cons_of_mem r hx))]

theorem getD_map_rows (f : List ℚ → List ℚ) (rows : List (List ℚ)) (i : Nat)
    (h : i < rows.length) : (rows.map f).getD i [] = f (rows.getD i []) := by
  induction rows generalizing i with
  | nil => simp at h
  | cons r rows ih =>
    cases i with
    | zero => rfl
    | succ i =>
      have h' : i < rows.length := by simpa using h
      simpa [List.getD_cons_succ] using ih i h'

theorem colMeans_length (mm : Mat) : (colMeans mm).length = mm.ncols := by
  simp [colMeans]

theorem getD_map_range (f : Nat → ℚ) (n j : Nat) (hj : j < n) :
    ((List.range n).map f).getD j 0 = f j := by
  have h1 : j < ((List.range n).map f).length := by simpa using hj
  rw [List.getD_eq_getElem _ _ h1]
  simp

theorem colMeans_getD (mm : Mat) (j : Nat) (hj : j < mm.ncols) :
    (colMeans mm).getD j 0 = ((mm.data.map (fun r => r.getD j 0)).sum) / (mm.nrows : ℚ) := by
  unfold colMeans
  exact getD_map_range _ mm.ncols j hj

/-! ### Mean linearity for the write-side local shift -/

theorem sum_map_sub (l : List (List ℚ)) (g : List ℚ → ℚ) (c : ℚ) :
    (l.map (fun r => g r - c)).sum = (l.map g).sum - l.length * c := by
  induction l with
  | nil => simp
  | cons r l ih =>
    simp only [List.map_cons, List.sum_cons, ih, List.length_cons]
    push_cast
    ring

theorem evalTriple_length (s : String) (gs : List ℚ) (h : evalTriple s = some gs) :
    gs.length = 3 := by
  unfold evalTriple at h
  cases hm : evalTriple.optMapParse (splitComma s.data) with
  | none => rw [hm] at h; exact absurd h (by simp)
  | some vals =>
    rw [hm] at h
    dsimp only at h
    by_cases h3 : vals.length = 3
    · rw [if_pos h3] at h
      cases h
      exact h3
    · rw [if_neg h3] at h
      exact absurd h (by simp)

theorem length_rowBin_of_three (f : ℚ → ℚ → ℚ) (r s : List ℚ) (hs : s.length = 3) :
    (rowBin f r s).length = min r.length 3 := by
  obtain ⟨a, b, c, rfl⟩ := List.length_eq_three.mp hs
  exact length_rowBin_triple f r a b c

theorem colMeans_pcMinusGS (pc : Mat) (gs : List ℚ) (hwf : pc.WF) (hpc3 : pc.ncols = 3)
    (hgs : gs.length = 3) (hN : 0 < pc.nrows) (j : Nat) (hj : j < 3) :
    (colMeans (pcMinusGS pc gs)).getD j 0 = (colMeans pc).getD j 0 - gs.getD j 0 := by
  have hj1 : j < (pcMinusGS pc gs).ncols := by show j < pc.ncols; omega
  have hj2 : j < pc.ncols := by omega
  rw [colMeans_getD _ j hj1, colMeans_getD pc j hj2]
  have hmap : (pcMinusGS pc gs).data.map (fun r => r.getD j 0)
      = pc.data.map (fun r => r.getD j 0 - gs.getD j 0) := by
    show (pc.data.map (fun r => rowBin (· - ·) r gs)).map (fun r => r.getD j 0) = _
    rw [List.map_map]
    apply List.map_congr_left
    intro r hr
    have hrlen : r.length = 3 := by rw [hwf.2 r hr, hpc3]
    obtain ⟨a, b, c, rfl⟩ := List.length_eq_three.mp hgs
    show (rowBin (· - ·) r [a, b, c]).getD j 0 = _
    rw [rowBin_triple, getD_zipWith _ r _ j (by omega) (by simpa using hj)]
  rw [hmap, sum_map_sub]
  show _ / ((pc.nrows : ℚ)) = _
  have hne : (pc.nrows : ℚ) ≠ 0 := Nat.cast_ne_zero.mpr (by omega)
  rw [hwf.1]
  field_simp

/-! ### Shape of the written payload rows -/

/-- The full payload rows written by write_sbf with scalar fields present:
float32 coordinates followed by float32 scalar-field cells. -/
def writeRows (f32 : ℚ → ℚ) (pc m : Mat) (gs : List ℚ) : List (List ℚ) :=
  ((writeCoords f32 pc gs).zip m.data).map (fun rc => rc.1 ++ rc.2.map f32)

theorem writeCoords_length (f32 : ℚ → ℚ) (pc : Mat) (gs : List ℚ) :
    (writeCoords f32 pc gs).length = pc.data.length := by
  simp [writeCoords, pcMinusGS]

theorem writeCoords_row_length (f32 : ℚ → ℚ) (pc : Mat) (gs : List ℚ)
    (hwf : pc.WF) (hpc3 : pc.ncols = 3) (hgs : gs.length = 3) :
    ∀ r ∈ writeCoords f32 pc gs, r.length = 3 := by
  have hcm : (colMeans (pcMinusGS pc gs)).length = 3 := by
    rw [colMeans_length]
    show pc.ncols = 3
    exact hpc3
  intro r hr
  rw [writeCoords, List.mem_map] at hr
  obtain ⟨r1, hr1, rfl⟩ := hr
  have hr1len : r1.length = 3 := by
    rw [show (pcMinusGS pc gs).data = pc.data.map (fun r => rowBin (· - ·) r gs)
      from rfl, List.mem_map] at hr1
    obtain ⟨r0, hr0, rfl⟩ := hr1
    rw [length_rowBin_of_three _ _ _ hgs, hwf.2 r0 hr0, hpc3]
    omega
  rw [List.length_map, length_rowBin_of_three _ _ _ hcm, hr1len]
  omega

theorem writeRows_length (f32 : ℚ → ℚ) (pc m : Mat) (gs : List ℚ)
    (hwf : pc.WF) (hmwf : m.WF) (hmr : m.nrows = pc.nrows) :
    (writeRows f32 pc m gs).length = pc.nrows := by
  rw [writeRows, List.length_map, List.length_zip, writeCoords_length, hwf.1, hmwf.1, hmr]
  omega

theorem writeRows_row_length (f32 : ℚ → ℚ) (pc m : Mat) (gs : List ℚ)
    (hwf : pc.WF) (hpc3 : pc.ncols = 3) (hgs : gs.length = 3) (hmwf : m.WF) :
    ∀ r ∈ writeRows f32 pc m gs, r.length = m.ncols + 3 := by
  intro r hr
  rw [writeRows, List.mem_map] at hr
  obtain ⟨⟨c, s⟩, hrc, rfl⟩ := hr
  have h12 := List.of_mem_zip hrc
  show (c ++ s.map f32).length = m.ncols + 3
  rw [List.length_append, List.length_map,
    writeCoords_row_length f32 pc gs hwf hpc3 hgs c h12.1, hmwf.2 s h12.2]
  omega

theorem writeRows_take (f32 : ℚ → ℚ) (pc m : Mat) (gs : List ℚ)
    (hwf : pc.WF) (hpc3 : pc.ncols = 3) (hgs : gs.length = 3)
    (hmwf : m.WF) (hmr : m.nrows = pc.nrows) :
    (writeRows f32 pc m gs).map (List.take 3) = writeCoords f32 pc gs := by
  rw [writeRows, List.map_map]
  rw [List.map_congr_left (g := fun rc : List ℚ × List ℚ => rc.1) (fun rc hrc => by
    obtain ⟨c, s⟩ := rc
    have h12 := List.of_mem_zip hrc
    show List.take 3 (c ++ s.map f32) = c
    exact List.take_left' (writeCoords_row_length f32 pc gs hwf hpc3 hgs c h12.1))]
  exact List.map_fst_zip _ _ (by rw [writeCoords_length, hwf.1, hmwf.1, hmr])

theorem writeRows_drop (f32 : ℚ → ℚ) (pc m : Mat) (gs : List ℚ)
    (hwf : pc.WF) (hpc3 : pc.ncols = 3) (hgs : gs.length = 3)
    (hmwf : m.WF) (hmr : m.nrows = pc.nrows) :
    (writeRows f32 pc m gs).map (List.drop 3) = m.data.map (List.map f32) := by
  rw [writeRows, List.map_map]
  rw [List.map_congr_left (g := fun rc : List ℚ × List ℚ => rc.2.map f32) (fun rc hrc => by
    obtain ⟨c, s⟩ := rc
    have h12 := List.of_mem_zip hrc
    show List.drop 3 (c ++ s.map f32) = s.map f32
    exact List.drop_left' (writeCoords_row_length f32 pc gs hwf hpc3 hgs c h12.1))]
  rw [show (fun rc : List ℚ × List ℚ => rc.2.map f32)
      = (List.map f32 ∘ Prod.snd) from rfl, ← List.map_map,
    List.map_snd_zip _ _ (by rw [writeCoords_length, hwf.1, hmwf.1, hmr])]

/-! ### Shape of a decoded payload matrix -/

theorem chunkRows_shape (k : Nat) (hk : 0 < k) :
    ∀ (n : Nat) (l : List ℚ), l.length = n * k →
      (chunkRows k l).length = n ∧ ∀ r ∈ chunkRows k l, r.length = k := by
  intro n
  induction n with
  | zero =>
    intro l hl
    have hnil : l = [] := List.length_eq_zero.mp (by simpa using hl)
    subst hnil
    rw [chunkRows, dif_pos (Or.inr rfl)]
    exact ⟨rfl, by intro r hr; simp at hr⟩
  | succ n ih =>
    intro l hl
    have hlk : k ≤ l.length := by rw [hl, Nat.succ_mul]; omega
    have hlne : l ≠ [] := by
      intro he
      rw [he] at hl
      simp [Nat.succ_mul] at hl
      omega
    rw [chunkRows, dif_neg (by push_neg; exact ⟨by omega, hlne⟩)]
    have hdl : (l.drop k).length = n * k := by
      rw [List.length_drop, hl, Nat.succ_mul]
      omega
    obtain ⟨ih1, ih2⟩ := ih (l.drop k) hdl
    refine ⟨by rw [List.length_cons, ih1], ?_⟩
    intro r hr
    rcases List.mem_cons.mp hr with h | h
    · subst h
      rw [List.length_take]
      omega
    · exact ih2 r h

theorem payloadMat_takeCols3 (pd : PayloadData)
    (hlen : pd.raw.length = pd.Np * (pd.Ns + 3)) :
    ((payloadMat pd).takeCols 3).WF ∧ ((payloadMat pd).takeCols 3).ncols = 3 := by
  obtain ⟨h1, h2⟩ := chunkRows_shape (pd.Ns + 3) (by omega) pd.Np pd.raw hlen
  have hnc : ((payloadMat pd).takeCols 3).ncols = 3 := by
    show min 3 (pd.Ns + 3) = 3
    omega
  refine ⟨⟨?_, ?_⟩, hnc⟩
  · show ((chunkRows (pd.Ns + 3) pd.raw).map (List.take 3)).length = pd.Np
    rw [List.length_map]
    exact h1
  · intro r hr
    rw [show ((payloadMat pd).takeCols 3).data
        = (chunkRows (pd.Ns + 3) pd.raw).map (List.take 3) from rfl, List.mem_map] at hr
    obtain ⟨r0, hr0, rfl⟩ := hr
    rw [hnc, List.length_take, h2 r0 hr0]
    omega

/-! ### Entry-level formulas for reading and writing coordinates -/

/-- When the config's GlobalShift evaluates to a triple, every shifted entry
is the stored value plus the local shift plus the global shift. -/
theorem shift_array_entry {cf : IniConfig} {sec : IniSection} {v : String} {gs : List ℚ}
    (a : Mat) (s : List ℚ)
    (h1 : kvGet cf "SBF" = some sec) (h2 : kvGet sec "GlobalShift" = some v)
    (h3 : evalTriple v = some gs)
    (hwf : a.WF) (hs : s.length = 3) (i j : Nat)
    (hi : i < a.nrows) (hj : j < a.ncols) (hj3 : j < 3) :
    (shift_array a s (some cf)).entry i j = a.entry i j + s.getD j 0 + gs.getD j 0 := by
  rw [shift_array_good a s h1 h2 h3]
  unfold Mat.entry
  have hgl : gs.length = 3 := evalTriple_length v gs h3
  have hil : i < a.data.length := by rw [hwf.1]; exact hi
  show (((a.data.map (fun r => rowBin (· + ·) r s)).map
      (fun r => rowBin (· + ·) r gs)).getD i []).getD j 0 = _
  rw [getD_map_rows _ _ i (by rw [List.length_map]; exact hil),
    getD_map_rows _ _ i hil]
  have hrmem : a.data.getD i [] ∈ a.data := by
    rw [List.getD_eq_getElem _ _ hil]
    exact List.getElem_mem hil
  have hrl : (a.data.getD i []).length = a.ncols := hwf.2 _ hrmem
  obtain ⟨s0, s1, s2, rfl⟩ := List.length_eq_three.mp hs
  obtain ⟨g0, g1, g2, rfl⟩ := List.length_eq_three.mp hgl
  rw [rowBin_triple, rowBin_triple,
    getD_zipWith _ _ _ j
      (by rw [List.length_zipWith, hrl]; show j < min a.ncols 3; omega)
      (by show j < 3; omega),
    getD_zipWith _ _ _ j (by rw [hrl]; omega) (by show j < 3; omega)]

/-- Each float32 coordinate cell written by write_sbf is a single narrowing
of the exact residual (pc - globalShift) - localShift. -/
theorem writeCoords_entry (f32 : ℚ → ℚ) (pc : Mat) (gs : List ℚ)
    (hwf : pc.WF) (hpc3 : pc.ncols = 3) (hgs : gs.length = 3)
    (i j : Nat) (hi : i < pc.nrows) (hj : j < 3) :
    ((writeCoords f32 pc gs).getD i []).getD j 0
      = f32 (pc.entry i j - gs.getD j 0 - (colMeans (pcMinusGS pc gs)).getD j 0) := by
  have hil : i < pc.data.length := by rw [hwf.1]; exact hi
  have hcm : (colMeans (pcMinusGS pc gs)).length = 3 := by
    rw [colMeans_length]
    exact hpc3
  show (((pc.data.map (fun r => rowBin (· - ·) r gs)).map
      (fun r => (rowBin (· - ·) r (colMeans (pcMinusGS pc gs))).map f32)).getD i []).getD j 0
    = _
  rw [getD_map_rows _ _ i (by rw [List.length_map]; exact hil),
    getD_map_rows _ _ i hil]
  have hrmem : pc.data.getD i [] ∈ pc.data := by
    rw [List.getD_eq_getElem _ _ hil]
    exact List.getElem_mem hil
  have hrl : (pc.data.getD i []).length = 3 := by rw [hwf.2 _ hrmem, hpc3]
  obtain ⟨g0, g1, g2, rfl⟩ := List.length_eq_three.mp hgs
  obtain ⟨c0, c1, c2, hcme⟩ := List.length_eq_three.mp hcm
  rw [hcme, rowBin_triple, rowBin_triple,
    getD_map _ _ j (by rw [List.length_zipWith, List.length_zipWith, hrl]; simp; omega),
    getD_zipWith _ _ _ j
      (by rw [List.length_zipWith, hrl]; show j < min 3 3; omega)
      (by show j < 3; omega),
    getD_zipWith _ _ _ j (by rw [hrl]; omega) (by show j < 3; omega)]
  rfl

/-! ### The payload record written on the plain path -/

/-- The payload record produced by write_sbf when scalar fields are present
and both extra features are off. -/
def writePD (f32 : ℚ → ℚ) (pc m : Mat) (gs : List ℚ) : PayloadData :=
  { flag := [42, 42], Np := pc.nrows, Ns := m.ncols,
    xshift := (colMeans (pcMinusGS pc gs)).getD 0 0,
    yshift := (colMeans (pcMinusGS pc gs)).getD 1 0,
    zshift := (colMeans (pcMinusGS pc gs)).getD 2 0,
    raw := (writeRows f32 pc m gs).flatten }

theorem writePD_raw_length (f32 : ℚ → ℚ) (pc m : Mat) (gs : List ℚ)
    (hwf : pc.WF) (hpc3 : pc.ncols = 3) (hgs : gs.length = 3)
    (hmwf : m.WF) (hmr : m.nrows = pc.nrows) :
    (writePD f32 pc m gs).raw.length
      = (writePD f32 pc m gs).Np * ((writePD f32 pc m gs).Ns + 3) := by
  show (writeRows f32 pc m gs).flatten.length = pc.nrows * (m.ncols + 3)
  rw [flatten_const_length _ _ (writeRows_row_length f32 pc m gs hwf hpc3 hgs hmwf),
    writeRows_length f32 pc m gs hwf hmwf hmr]

theorem payloadMat_writePD (f32 : ℚ → ℚ) (pc m : Mat) (gs : List ℚ)
    (hwf : pc.WF) (hpc3 : pc.ncols = 3) (hgs : gs.length = 3) (hmwf : m.WF) :
    payloadMat (writePD f32 pc m gs)
      = ⟨pc.nrows, m.ncols + 3, writeRows f32 pc m gs⟩ := by
  show (⟨pc.nrows, m.ncols + 3,
      chunkRows (m.ncols + 3) (writeRows f32 pc m gs).flatten⟩ : Mat) = _
  rw [chunkRows_flatten _ _ (by omega)
    (writeRows_row_length f32 pc m gs hwf hpc3 hgs hmwf)]

/-! ### C4 -/

/-- C4: shift composition.  Writing stores as the payload local shift the
component-wise value mean(pc) - globalShift (the centroid of the globally
shifted cloud); every stored coordinate cell is a single float32 narrowing
of the exact residual pc - globalShift - localShift, computed on exact
(double-precision) values; and on read every coordinate of the returned
point matrix is reconstructed as storedValue + localShift + globalShift. -/
theorem shift_composition (f32 : ℚ → ℚ) (pc m : Mat) (cf : IniConfig) (sec : IniSection)
    (gsStr : String) (gs : List ℚ)
    (hsec : kvGet cf "SBF" = some sec)
    (hgs : kvGet sec "GlobalShift" = some gsStr)
    (hev : evalTriple gsStr = some gs)
    (hwf : pc.WF) (hpc3 : pc.ncols = 3) (hN : 0 < pc.nrows)
    (hmwf : m.WF) (hm0 : m.ncols ≠ 0) (hmr : m.nrows = pc.nrows) :
    (write_sbf f32 pc (some m) (some cf) false none
      = .ok (updSBF (updSBF cf (fun s => kvSet s "Points" (natRepr pc.nrows)))
               (fun s => kvSet s "SFCount" (natRepr m.ncols)),
             writePD f32 pc m gs)) ∧
    ([(writePD f32 pc m gs).xshift, (writePD f32 pc m gs).yshift,
        (writePD f32 pc m gs).zshift]
      = [(colMeans pc).getD 0 0 - gs.getD 0 0,
         (colMeans pc).getD 1 0 - gs.getD 1 0,
         (colMeans pc).getD 2 0 - gs.getD 2 0]) ∧
    (∀ i j, i < pc.nrows → j < 3 →
      ((payloadMat (writePD f32 pc m gs)).takeCols 3).entry i j
        = f32 (pc.entry i j - gs.getD j 0
               - ((colMeans pc).getD j 0 - gs.getD j 0))) ∧
    (∀ (hdr : IniConfig) (sec2 : IniSection) (v : String) (gs2 : List ℚ)
       (pc2 : Mat) (sf2 : Option Mat) (cfg2 : Option IniConfig),
      kvGet hdr "SBF" = some sec2 → kvGet sec2 "GlobalShift" = some v →
      evalTriple v = some gs2 →
      read_sbf hdr (writePD f32 pc m gs) = .ok (pc2, sf2, cfg2) →
      ∀ i j, i < pc.nrows → j < 3 →
        pc2.entry i j
          = ((payloadMat (writePD f32 pc m gs)).takeCols 3).entry i j
            + [(writePD f32 pc m gs).xshift, (writePD f32 pc m gs).yshift,
                (writePD f32 pc m gs).zshift].getD j 0
            + gs2.getD j 0) := by
  have hgl : gs.length = 3 := evalTriple_length _ _ hev
  have hlen := writePD_raw_length f32 pc m gs hwf hpc3 hgl hmwf hmr
  refine ⟨write_sbf_ok_some f32 pc m cf sec gsStr gs hsec hgs hev hpc3 hm0 hmr,
    ?_, ?_, ?_⟩
  · show [(colMeans (pcMinusGS pc gs)).getD 0 0, (colMeans (pcMinusGS pc gs)).getD 1 0,
        (colMeans (pcMinusGS pc gs)).getD 2 0] = _
    rw [colMeans_pcMinusGS pc gs hwf hpc3 hgl hN 0 (by omega),
      colMeans_pcMinusGS pc gs hwf hpc3 hgl hN 1 (by omega),
      colMeans_pcMinusGS pc gs hwf hpc3 hgl hN 2 (by omega)]
  · intro i j hi hj
    rw [payloadMat_writePD f32 pc m gs hwf hpc3 hgl hmwf]
    show (((writeRows f32 pc m gs).map (List.take 3)).getD i []).getD j 0 = _
    rw [writeRows_take f32 pc m gs hwf hpc3 hgl hmwf hmr,
      writeCoords_entry f32 pc gs hwf hpc3 hgl i j hi hj,
      colMeans_pcMinusGS pc gs hwf hpc3 hgl hN j hj]
  · intro hdr sec2 v gs2 pc2 sf2 cfg2 hh1 hh2 hh3 hread i j hi hj
    have hro := read_sbf_ok hdr (writePD f32 pc m gs) hlen
    rw [hread] at hro
    simp only [Except.ok.injEq, Prod.mk.injEq] at hro
    have hhdr : read_sbf_header hdr = some hdr := by
      unfold read_sbf_header
      rw [hh1]
      rfl
    obtain ⟨hawf, hanc⟩ := payloadMat_takeCols3 _ hlen
    rw [hro.1, hhdr]
    exact shift_array_entry _
      [(writePD f32 pc m gs).xshift, (writePD f32 pc m gs).yshift,
        (writePD f32 pc m gs).zshift]
      hh1 hh2 hh3 hawf rfl i j hi (by rw [hanc]; omega) hj

/-- Point cloud used by the C4 witness. -/
def pcW4 : Mat := ⟨2, 3, [[1, 2, 3], [3, 4, 5]]⟩

/-- Scalar-field matrix used by the C4 witness. -/
def mW4 : Mat := ⟨2, 1, [[7], [8]]⟩

/-- Witness for C4: the theorem applied to a concrete two-point cloud with
one scalar field and the zero global shift. -/
theorem shift_composition_witness :
    (write_sbf id pcW4 (some mW4) (some hdrW) false none
      = .ok (updSBF (updSBF hdrW (fun s => kvSet s "Points" (natRepr pcW4.nrows)))
               (fun s => kvSet s "SFCount" (natRepr mW4.ncols)),
             writePD id pcW4 mW4 [0, 0, 0])) ∧
    ([(writePD id pcW4 mW4 [0, 0, 0]).xshift, (writePD id pcW4 mW4 [0, 0, 0]).yshift,
        (writePD id pcW4 mW4 [0, 0, 0]).zshift]
      = [(colMeans pcW4).getD 0 0 - ([0, 0, 0] : List ℚ).getD 0 0,
         (colMeans pcW4).getD 1 0 - ([0, 0, 0] : List ℚ).getD 1 0,
         (colMeans pcW4).getD 2 0 - ([0, 0, 0] : List ℚ).getD 2 0]) ∧
    (∀ i j, i < pcW4.nrows → j < 3 →
      ((payloadMat (writePD id pcW4 mW4 [0, 0, 0])).takeCols 3).entry i j
        = id (pcW4.entry i j - ([0, 0, 0] : List ℚ).getD j 0
               - ((colMeans pcW4).getD j 0 - ([0, 0, 0] : List ℚ).getD j 0))) ∧
    (∀ (hdr : IniConfig) (sec2 : IniSection) (v : String) (gs2 : List ℚ)
       (pc2 : Mat) (sf2 : Option Mat) (cfg2 : Option IniConfig),
      kvGet hdr "SBF" = some sec2 → kvGet sec2 "GlobalShift" = some v →
      evalTriple v = some gs2 →
      read_sbf hdr (writePD id pcW4 mW4 [0, 0, 0]) = .ok (pc2, sf2, cfg2) →
      ∀ i j, i < pcW4.nrows → j < 3 →
        pc2.entry i j
          = ((payloadMat (writePD id pcW4 mW4 [0, 0, 0])).takeCols 3).entry i j
            + [(writePD id pcW4 mW4 [0, 0, 0]).xshift,
                (writePD id pcW4 mW4 [0, 0, 0]).yshift,
                (writePD id pcW4 mW4 [0, 0, 0]).zshift].getD j 0
            + gs2.getD j 0) :=
  shift_composition id pcW4 mW4 hdrW
    [("Points", "1"), ("SFCount", "0"), ("GlobalShift", "0., 0., 0.")]
    "0., 0., 0." [0, 0, 0]
    (by rfl) (by rfl)
    (by simp +decide [evalTriple, splitComma, trimChars, evalTriple.optMapParse,
      parsePyNumber, stripSign, splitAtExp, splitAtDot, parseMantissa, pyNatOptL,
      pyDigits, digitVal, List.dropWhile])
    (by decide) (by rfl) (by decide) (by decide) (by decide) (by rfl)

/-! ### Entry values of the written payload blocks -/

theorem takeCols_writePD_entry (f32 : ℚ → ℚ) (pc m : Mat) (gs : List ℚ)
    (hwf : pc.WF) (hpc3 : pc.ncols = 3) (hgs : gs.length = 3)
    (hmwf : m.WF) (hmr : m.nrows = pc.nrows)
    (i j : Nat) (hi : i < pc.nrows) (hj : j < 3) :
    ((payloadMat (writePD f32 pc m gs)).takeCols 3).entry i j
      = f32 (pc.entry i j - gs.getD j 0 - (colMeans (pcMinusGS pc gs)).getD j 0) := by
  rw [payloadMat_writePD f32 pc m gs hwf hpc3 hgs hmwf]
  show (((writeRows f32 pc m gs).map (List.take 3)).getD i []).getD j 0 = _
  rw [writeRows_take f32 pc m gs hwf hpc3 hgs hmwf hmr,
    writeCoords_entry f32 pc gs hwf hpc3 hgs i j hi hj]

theorem dropCols_writePD_entry (f32 : ℚ → ℚ) (pc m : Mat) (gs : List ℚ)
    (hwf : pc.WF) (hpc3 : pc.ncols = 3) (hgs : gs.length = 3)
    (hmwf : m.WF) (hmr : m.nrows = pc.nrows)
    (i j : Nat) (hi : i < pc.nrows) (hj : j < m.ncols) :
    ((payloadMat (writePD f32 pc m gs)).dropCols 3).entry i j = f32 (m.entry i j) := by
  rw [payloadMat_writePD f32 pc m gs hwf hpc3 hgs hmwf]
  show (((writeRows f32 pc m gs).map (List.drop 3)).getD i []).getD j 0 = _
  rw [writeRows_drop f32 pc m gs hwf hpc3 hgs hmwf hmr]
  have him : i < m.data.length := by rw [hmwf.1, hmr]; exact hi
  rw [getD_map_rows _ _ i him]
  have hrmem : m.data.getD i [] ∈ m.data := by
    rw [List.getD_eq_getElem _ _ him]
    exact List.getElem_mem him
  rw [getD_map _ _ j (by rw [hmwf.2 _ hrmem]; exact hj)]
  rfl

theorem getD_triple_cases (l : List ℚ) (j : Nat) (hj : j < 3) :
    ([l.getD 0 0, l.getD 1 0, l.getD 2 0] : List ℚ).getD j 0 = l.getD j 0 := by
  rcases j with _ | _ | _ | j
  · rfl
  · rfl
  · rfl
  · omega

/-- Setting a non-SF key (fresh or existing) never changes the
field-name/index dictionary. -/
theorem gnid_kvSet_nonSF (sec : IniSection) (k : String) (v : String)
    (hk : sfKeyIndex k = none) :
    get_name_index_dict (kvSet sec k v) = get_name_index_dict sec := by
  induction sec with
  | nil => simp [kvSet, get_name_index_dict, hk]
  | cons p rest ih =>
    rw [kvSet]
    by_cases h : p.1 = k
    · rw [if_pos h]
      show ((k, v) :: rest).filterMap _ = (p :: rest).filterMap _
      rw [List.filterMap_cons, List.filterMap_cons, hk,
        show sfKeyIndex p.1 = none from by rw [h]; exact hk]
      rfl
    · rw [if_neg h]
      show (p :: kvSet rest k v).filterMap _ = (p :: rest).filterMap _
      rw [List.filterMap_cons, List.filterMap_cons]
      cases hpi : sfKeyIndex p.1 with
      | none => exact ih
      | some idx => exact congrArg (List.cons (p.2, idx)) ih

/-! ### The payload record written when no scalar fields are present -/

/-- The payload record produced by write_sbf when sf is None: the preamble
declares Ns = 0 and the cells are the float32 coordinate rows alone. -/
def writePD0 (f32 : ℚ → ℚ) (pc : Mat) (gs : List ℚ) : PayloadData :=
  { flag := [42, 42], Np := pc.nrows, Ns := 0,
    xshift := (colMeans (pcMinusGS pc gs)).getD 0 0,
    yshift := (colMeans (pcMinusGS pc gs)).getD 1 0,
    zshift := (colMeans (pcMinusGS pc gs)).getD 2 0,
    raw := (writeCoords f32 pc gs).flatten }

theorem writePD0_raw_length (f32 : ℚ → ℚ) (pc : Mat) (gs : List ℚ)
    (hwf : pc.WF) (hpc3 : pc.ncols = 3) (hgs : gs.length = 3) :
    (writePD0 f32 pc gs).raw.length
      = (writePD0 f32 pc gs).Np * ((writePD0 f32 pc gs).Ns + 3) := by
  show (writeCoords f32 pc gs).flatten.length = pc.nrows * (0 + 3)
  rw [flatten_const_length _ 3 (writeCoords_row_length f32 pc gs hwf hpc3 hgs),
    writeCoords_length, hwf.1]

theorem map_take_all (rows : List (List ℚ)) (k : Nat) (h : ∀ r ∈ rows, r.length = k) :
    rows.map (List.take k) = rows := by
  induction rows with
  | nil => rfl
  | cons r rows ih =>
    rw [List.map_cons, ih (fun x hx => h x (List.mem_cons_of_mem r hx)),
      show r.take k = r from by
        rw [← h r (List.mem_cons_self r rows)]
        exact List.take_length r]

theorem payloadMat_writePD0 (f32 : ℚ → ℚ) (pc : Mat) (gs : List ℚ)
    (hwf : pc.WF) (hpc3 : pc.ncols = 3) (hgs : gs.length = 3) :
    payloadMat (writePD0 f32 pc gs) = ⟨pc.nrows, 3, writeCoords f32 pc gs⟩ := by
  show (⟨pc.nrows, 0 + 3, chunkRows (0 + 3) (writeCoords f32 pc gs).flatten⟩ : Mat) = _
  rw [show (0 + 3 : Nat) = 3 from rfl,
    chunkRows_flatten _ _ (by omega) (writeCoords_row_length f32 pc gs hwf hpc3 hgs)]

theorem takeCols_writePD0_entry (f32 : ℚ → ℚ) (pc : Mat) (gs : List ℚ)
    (hwf : pc.WF) (hpc3 : pc.ncols = 3) (hgs : gs.length = 3)
    (i j : Nat) (hi : i < pc.nrows) (hj : j < 3) :
    ((payloadMat (writePD0 f32 pc gs)).takeCols 3).entry i j
      = f32 (pc.entry i j - gs.getD j 0 - (colMeans (pcMinusGS pc gs)).getD j 0) := by
  rw [payloadMat_writePD0 f32 pc gs hwf hpc3 hgs]
  show (((writeCoords f32 pc gs).map (List.take 3)).getD i []).getD j 0 = _
  rw [map_take_all _ 3 (writeCoords_row_length f32 pc gs hwf hpc3 hgs),
    writeCoords_entry f32 pc gs hwf hpc3 hgs i j hi hj]

/-! ### C3 -/

/-- C3: round trip.  For every Document - a well-formed N-by-3 point
matrix with N >= 0 rows, together with either a scalar-field matrix of
S >= 1 columns or no scalar fields at all, under a header whose
GlobalShift evaluates to a triple - writing with write_sbf and reading the
result back with read_sbf yields a Document with the same point count, a
written header whose field-name dictionary equals the original's, every
reconstructed coordinate within the relative float32 rounding of its
centroid residual, and (when present) every scalar value within its own
relative float32 rounding; when no scalar fields are written, none are
read back.  The N = 0 and S = 0 Documents of the claim are covered: the
coordinate and scalar comparisons are then vacuous and the counts and
names are still preserved. -/
theorem round_trip (f32 : ℚ → ℚ) (ε : ℚ) (hf : ∀ x : ℚ, |f32 x - x| ≤ ε * |x|)
    (pc : Mat) (cf : IniConfig) (sec : IniSection) (gsStr : String) (gs : List ℚ)
    (hsec : kvGet cf "SBF" = some sec)
    (hgs : kvGet sec "GlobalShift" = some gsStr)
    (hev : evalTriple gsStr = some gs)
    (hwf : pc.WF) (hpc3 : pc.ncols = 3) :
    (∀ m : Mat, m.WF → m.ncols ≠ 0 → m.nrows = pc.nrows →
      ∃ cfW pd pc2 sf2,
        write_sbf f32 pc (some m) (some cf) false none = .ok (cfW, pd) ∧
        read_sbf cfW pd = .ok (pc2, some sf2, some cfW) ∧
        pc2.nrows = pc.nrows ∧ pc2.ncols = 3 ∧
        sf2.nrows = pc.nrows ∧ sf2.ncols = m.ncols ∧
        (∀ sec2, kvGet cfW "SBF" = some sec2 →
          get_name_index_dict sec2 = get_name_index_dict sec) ∧
        (∀ i j, i < pc.nrows → j < 3 →
          |pc2.entry i j - pc.entry i j|
            ≤ ε * |pc.entry i j - (colMeans pc).getD j 0|) ∧
        (∀ i j, i < pc.nrows → j < m.ncols →
          |sf2.entry i j - m.entry i j| ≤ ε * |m.entry i j|)) ∧
    (∃ cfW pd pc2,
      write_sbf f32 pc none (some cf) false none = .ok (cfW, pd) ∧
      read_sbf cfW pd = .ok (pc2, none, some cfW) ∧
      pc2.nrows = pc.nrows ∧ pc2.ncols = 3 ∧
      (∀ sec2, kvGet cfW "SBF" = some sec2 →
        get_name_index_dict sec2 = get_name_index_dict sec) ∧
      (∀ i j, i < pc.nrows → j < 3 →
        |pc2.entry i j - pc.entry i j|
          ≤ ε * |pc.entry i j - (colMeans pc).getD j 0|)) := by
  have hgl : gs.length = 3 := evalTriple_length _ _ hev
  constructor
  · intro m hmwf hm0 hmr
    have hlen := writePD_raw_length f32 pc m gs hwf hpc3 hgl hmwf hmr
    have hsecW : kvGet (updSBF (updSBF cf (fun s => kvSet s "Points" (natRepr pc.nrows)))
          (fun s => kvSet s "SFCount" (natRepr m.ncols))) "SBF"
        = some (kvSet (kvSet sec "Points" (natRepr pc.nrows)) "SFCount"
            (natRepr m.ncols)) := by
      rw [kvGet_updSBF, kvGet_updSBF, hsec]
      rfl
    have hgsW : kvGet (kvSet (kvSet sec "Points" (natRepr pc.nrows)) "SFCount"
          (natRepr m.ncols)) "GlobalShift" = some gsStr := by
      rw [kvGet_kvSet_other _ _ (by decide), kvGet_kvSet_other _ _ (by decide), hgs]
    have hhdrW : read_sbf_header (updSBF (updSBF cf
          (fun s => kvSet s "Points" (natRepr pc.nrows)))
          (fun s => kvSet s "SFCount" (natRepr m.ncols)))
        = some (updSBF (updSBF cf (fun s => kvSet s "Points" (natRepr pc.nrows)))
            (fun s => kvSet s "SFCount" (natRepr m.ncols))) := by
      unfold read_sbf_header
      rw [hsecW]
      rfl
    obtain ⟨hawf, hanc⟩ := payloadMat_takeCols3 (writePD f32 pc m gs) hlen
    refine ⟨updSBF (updSBF cf (fun s => kvSet s "Points" (natRepr pc.nrows)))
        (fun s => kvSet s "SFCount" (natRepr m.ncols)),
      writePD f32 pc m gs,
      shift_array ((payloadMat (writePD f32 pc m gs)).takeCols 3)
        [(writePD f32 pc m gs).xshift, (writePD f32 pc m gs).yshift,
          (writePD f32 pc m gs).zshift]
        (some (updSBF (updSBF cf (fun s => kvSet s "Points" (natRepr pc.nrows)))
          (fun s => kvSet s "SFCount" (natRepr m.ncols)))),
      (payloadMat (writePD f32 pc m gs)).dropCols 3,
      write_sbf_ok_some f32 pc m cf sec gsStr gs hsec hgs hev hpc3 hm0 hmr,
      ?_, ?_, ?_, ?_, ?_, ?_, ?_, ?_⟩
    · have hro := read_sbf_ok (updSBF (updSBF cf
          (fun s => kvSet s "Points" (natRepr pc.nrows)))
          (fun s => kvSet s "SFCount" (natRepr m.ncols))) (writePD f32 pc m gs) hlen
      rw [hhdrW] at hro
      rw [hro, if_pos (show (writePD f32 pc m gs).Ns ≠ 0 from hm0)]
    · rw [shift_array_nrows]
      rfl
    · rw [shift_array_ncols]
      show min 3 (m.ncols + 3) = 3
      omega
    · rfl
    · show m.ncols + 3 - 3 = m.ncols
      omega
    · intro sec2 hsec2
      rw [hsecW] at hsec2
      obtain rfl : _ = sec2 := Option.some.inj hsec2
      rw [gnid_kvSet_nonSF _ _ _ sfKeyIndex_SFCount,
        gnid_kvSet_nonSF _ _ _ sfKeyIndex_Points]
    · intro i j hi hj
      have hN : 0 < pc.nrows := by omega
      have hent := shift_array_entry
        ((payloadMat (writePD f32 pc m gs)).takeCols 3)
        [(writePD f32 pc m gs).xshift, (writePD f32 pc m gs).yshift,
          (writePD f32 pc m gs).zshift]
        hsecW hgsW hev hawf rfl i j hi (by rw [hanc]; omega) hj
      have hshift : ([(writePD f32 pc m gs).xshift, (writePD f32 pc m gs).yshift,
          (writePD f32 pc m gs).zshift] : List ℚ).getD j 0
          = (colMeans pc).getD j 0 - gs.getD j 0 := by
        show ([(colMeans (pcMinusGS pc gs)).getD 0 0, (colMeans (pcMinusGS pc gs)).getD 1 0,
            (colMeans (pcMinusGS pc gs)).getD 2 0] : List ℚ).getD j 0 = _
        rw [getD_triple_cases _ j hj, colMeans_pcMinusGS pc gs hwf hpc3 hgl hN j hj]
      have hentv : (shift_array ((payloadMat (writePD f32 pc m gs)).takeCols 3)
          [(writePD f32 pc m gs).xshift, (writePD f32 pc m gs).yshift,
            (writePD f32 pc m gs).zshift]
          (some (updSBF (updSBF cf (fun s => kvSet s "Points" (natRepr pc.nrows)))
            (fun s => kvSet s "SFCount" (natRepr m.ncols))))).entry i j
          = f32 (pc.entry i j - (colMeans pc).getD j 0)
            + ((colMeans pc).getD j 0 - gs.getD j 0) + gs.getD j 0 := by
        rw [hent, takeCols_writePD_entry f32 pc m gs hwf hpc3 hgl hmwf hmr i j hi hj,
          hshift, colMeans_pcMinusGS pc gs hwf hpc3 hgl hN j hj,
          show pc.entry i j - gs.getD j 0 - ((colMeans pc).getD j 0 - gs.getD j 0)
            = pc.entry i j - (colMeans pc).getD j 0 from by ring]
      have key : (shift_array ((payloadMat (writePD f32 pc m gs)).takeCols 3)
          [(writePD f32 pc m gs).xshift, (writePD f32 pc m gs).yshift,
            (writePD f32 pc m gs).zshift]
          (some (updSBF (updSBF cf (fun s => kvSet s "Points" (natRepr pc.nrows)))
            (fun s => kvSet s "SFCount" (natRepr m.ncols))))).entry i j - pc.entry i j
          = f32 (pc.entry i j - (colMeans pc).getD j 0)
            - (pc.entry i j - (colMeans pc).getD j 0) := by
        rw [hentv]
        ring
      rw [key]
      exact hf (pc.entry i j - (colMeans pc).getD j 0)
    · intro i j hi hj
      have hsf := dropCols_writePD_entry f32 pc m gs hwf hpc3 hgl hmwf hmr i j hi hj
      rw [show ((payloadMat (writePD f32 pc m gs)).dropCols 3).entry i j - m.entry i j
        = f32 (m.entry i j) - m.entry i j from by rw [hsf]]
      exact hf (m.entry i j)
  · have hlen := writePD0_raw_length f32 pc gs hwf hpc3 hgl
    have hsecW : kvGet (updSBF (updSBF cf (fun s => kvSet s "Points" (natRepr pc.nrows)))
          (fun s => kvSet s "SFCount" (natRepr 0))) "SBF"
        = some (kvSet (kvSet sec "Points" (natRepr pc.nrows)) "SFCount"
            (natRepr 0)) := by
      rw [kvGet_updSBF, kvGet_updSBF, hsec]
      rfl
    have hgsW : kvGet (kvSet (kvSet sec "Points" (natRepr pc.nrows)) "SFCount"
          (natRepr 0)) "GlobalShift" = some gsStr := by
      rw [kvGet_kvSet_other _ _ (by decide), kvGet_kvSet_other _ _ (by decide), hgs]
    have hhdrW : read_sbf_header (updSBF (updSBF cf
          (fun s => kvSet s "Points" (natRepr pc.nrows)))
          (fun s => kvSet s "SFCount" (natRepr 0)))
        = some (updSBF (updSBF cf (fun s => kvSet s "Points" (natRepr pc.nrows)))
            (fun s => kvSet s "SFCount" (natRepr 0))) := by
      unfold read_sbf_header
      rw [hsecW]
      rfl
    obtain ⟨hawf, hanc⟩ := payloadMat_takeCols3 (writePD0 f32 pc gs) hlen
    refine ⟨updSBF (updSBF cf (fun s => kvSet s "Points" (natRepr pc.nrows)))
        (fun s => kvSet s "SFCount" (natRepr 0)),
      writePD0 f32 pc gs,
      shift_array ((payloadMat (writePD0 f32 pc gs)).takeCols 3)
        [(writePD0 f32 pc gs).xshift, (writePD0 f32 pc gs).yshift,
          (writePD0 f32 pc gs).zshift]
        (some (updSBF (updSBF cf (fun s => kvSet s "Points" (natRepr pc.nrows)))
          (fun s => kvSet s "SFCount" (natRepr 0)))),
      write_sbf_ok_nosf f32 pc cf sec gsStr gs hsec hgs hev hpc3,
      ?_, ?_, ?_, ?_, ?_⟩
    · have hro := read_sbf_ok (updSBF (updSBF cf
          (fun s => kvSet s "Points" (natRepr pc.nrows)))
          (fun s => kvSet s "SFCount" (natRepr 0))) (writePD0 f32 pc gs) hlen
      rw [hhdrW] at hro
      rw [hro, if_neg (show ¬((writePD0 f32 pc gs).Ns ≠ 0) from fun h => h rfl)]
    · rw [shift_array_nrows]
      rfl
    · rw [shift_array_ncols]
      show min 3 (0 + 3) = 3
      omega
    · intro sec2 hsec2
      rw [hsecW] at hsec2
      obtain rfl : _ = sec2 := Option.some.inj hsec2
      rw [gnid_kvSet_nonSF _ _ _ sfKeyIndex_SFCount,
        gnid_kvSet_nonSF _ _ _ sfKeyIndex_Points]
    · intro i j hi hj
      have hN : 0 < pc.nrows := by omega
      have hent := shift_array_entry
        ((payloadMat (writePD0 f32 pc gs)).takeCols 3)
        [(writePD0 f32 pc gs).xshift, (writePD0 f32 pc gs).yshift,
          (writePD0 f32 pc gs).zshift]
        hsecW hgsW hev hawf rfl i j hi (by rw [hanc]; omega) hj
      have hshift : ([(writePD0 f32 pc gs).xshift, (writePD0 f32 pc gs).yshift,
          (writePD0 f32 pc gs).zshift] : List ℚ).getD j 0
          = (colMeans pc).getD j 0 - gs.getD j 0 := by
        show ([(colMeans (pcMinusGS pc gs)).getD 0 0, (colMeans (pcMinusGS pc gs)).getD 1 0,
            (colMeans (pcMinusGS pc gs)).getD 2 0] : List ℚ).getD j 0 = _
        rw [getD_triple_cases _ j hj, colMeans_pcMinusGS pc gs hwf hpc3 hgl hN j hj]
      have hentv : (shift_array ((payloadMat (writePD0 f32 pc gs)).takeCols 3)
          [(writePD0 f32 pc gs).xshift, (writePD0 f32 pc gs).yshift,
            (writePD0 f32 pc gs).zshift]
          (some (updSBF (updSBF cf (fun s => kvSet s "Points" (natRepr pc.nrows)))
            (fun s => kvSet s "SFCount" (natRepr 0))))).entry i j
          = f32 (pc.entry i j - (colMeans pc).getD j 0)
            + ((colMeans pc).getD j 0 - gs.getD j 0) + gs.getD j 0 := by
        rw [hent, takeCols_writePD0_entry f32 pc gs hwf hpc3 hgl i j hi hj,
          hshift, colMeans_pcMinusGS pc gs hwf hpc3 hgl hN j hj,
          show pc.entry i j - gs.getD j 0 - ((colMeans pc).getD j 0 - gs.getD j 0)
            = pc.entry i j - (colMeans pc).getD j 0 from by ring]
      have key : (shift_array ((payloadMat (writePD0 f32 pc gs)).takeCols 3)
          [(writePD0 f32 pc gs).xshift, (writePD0 f32 pc gs).yshift,
            (writePD0 f32 pc gs).zshift]
          (some (updSBF (updSBF cf (fun s => kvSet s "Points" (natRepr pc.nrows)))
            (fun s => kvSet s "SFCount" (natRepr 0))))).entry i j - pc.entry i j
          = f32 (pc.entry i j - (colMeans pc).getD j 0)
            - (pc.entry i j - (colMeans pc).getD j 0) := by
        rw [hentv]
        ring
      rw [key]
      exact hf (pc.entry i j - (colMeans pc).getD j 0)

/-- Witness for C3: the theorem applied to a concrete two-point cloud with
the identity narrowing map and zero tolerance; the first conjunct covers
every scalar-field matrix (the concrete mW4 included), the second the
field-less write. -/
theorem round_trip_witness :
    (∀ m : Mat, m.WF → m.ncols ≠ 0 → m.nrows = pcW4.nrows →
      ∃ cfW pd pc2 sf2,
        write_sbf id pcW4 (some m) (some hdrW) false none = .ok (cfW, pd) ∧
        read_sbf cfW pd = .ok (pc2, some sf2, some cfW) ∧
        pc2.nrows = pcW4.nrows ∧ pc2.ncols = 3 ∧
        sf2.nrows = pcW4.nrows ∧ sf2.ncols = m.ncols ∧
        (∀ sec2, kvGet cfW "SBF" = some sec2 →
          get_name_index_dict sec2
            = get_name_index_dict
                [("Points", "1"), ("SFCount", "0"), ("GlobalShift", "0., 0., 0.")]) ∧
        (∀ i j, i < pcW4.nrows → j < 3 →
          |pc2.entry i j - pcW4.entry i j|
            ≤ 0 * |pcW4.entry i j - (colMeans pcW4).getD j 0|) ∧
        (∀ i j, i < pcW4.nrows → j < m.ncols →
          |sf2.entry i j - m.entry i j| ≤ 0 * |m.entry i j|)) ∧
    (∃ cfW pd pc2,
      write_sbf id pcW4 none (some hdrW) false none = .ok (cfW, pd) ∧
      read_sbf cfW pd = .ok (pc2, none, some cfW) ∧
      pc2.nrows = pcW4.nrows ∧ pc2.ncols = 3 ∧
      (∀ sec2, kvGet cfW "SBF" = some sec2 →
        get_name_index_dict sec2
          = get_name_index_dict
              [("Points", "1"), ("SFCount", "0"), ("GlobalShift", "0., 0., 0.")]) ∧
      (∀ i j, i < pcW4.nrows → j < 3 →
        |pc2.entry i j - pcW4.entry i j|
          ≤ 0 * |pcW4.entry i j - (colMeans pcW4).getD j 0|)) :=
  round_trip id 0 (fun x => by simp) pcW4 hdrW
    [("Points", "1"), ("SFCount", "0"), ("GlobalShift", "0., 0., 0.")]
    "0., 0., 0." [0, 0, 0]
    (by rfl) (by rfl)
    (by simp +decide [evalTriple, splitComma, trimChars, evalTriple.optMapParse,
      parsePyNumber, stripSign, splitAtExp, splitAtDot, parseMantissa, pyNatOptL,
      pyDigits, digitVal, List.dropWhile])
    (by decide) (by rfl)

/-! ### Decimal representations across Int and Nat -/

theorem intRepr_natCast (n : Nat) : intRepr (n : Int) = natRepr n := by
  unfold intRepr
  rw [if_neg (by omega : ¬((n : Int) < 0))]
  rfl

theorem intRepr_add_one (n : Nat) : intRepr ((n : Int) + 1) = natRepr (n + 1) := by
  rw [show ((n : Int) + 1) = ((n + 1 : Nat) : Int) from by push_cast; ring, intRepr_natCast]

/-- Computation of rename_sf on a canonical Document header: only the value
of the field's own SF key changes. -/
theorem rename_sf_canonical (a b p c g : String) (pre post : List String)
    (ha_post : a ∉ post) :
    rename_sf a b (canonicalCfgC p c g (pre ++ a :: post))
      = .ok (canonicalCfgC p c g (pre ++ b :: post)) := by
  have hlk : dictLookup (get_name_index_dict (canonicalSecC p c g (pre ++ a :: post))) a
      = some (pre.length : Int) := by
    rw [gnid_canonical, dictLookup_namePairs_at pre post a 0 ha_post, zero_add]
  have h0 : getSBFE (canonicalCfgC p c g (pre ++ a :: post))
      = .ok (canonicalSecC p c g (pre ++ a :: post)) := getSBFE_single _
  unfold rename_sf
  rw [h0]
  simp only [bind, Except.instMonad, Except.bind, hlk]
  have hcast : (pre.length : Int) + 1 = ((pre.length + 1 : Nat) : Int) := by push_cast; ring
  rw [hcast, kvSet_canonical_sfKeyS_at p c g b (pre ++ a :: post) (pre.length + 1)
    (by omega) (by simp; omega)]
  have hset : (pre ++ a :: post).set (pre.length + 1 - 1) b = pre ++ b :: post := by
    have h1 : pre.length + 1 - 1 = pre.length := by omega
    rw [h1, list_set_at_append]
  rw [hset]
  rw [show canonicalCfgC p c g (pre ++ a :: post)
      = [("SBF", canonicalSecC p c g (pre ++ a :: post))] from rfl, setSBF_single]
  rfl

/-! ### remove_sf at an arbitrary field position -/

theorem npColIndex_lt (t n : Nat) (h : t < n) : npColIndex (t : Int) n = .ok t := by
  rw [npColIndex, if_pos ⟨by omega, by omega⟩]
  norm_num

/-- The first renumbering loop succeeds whenever every visited key is
present in the original section, and it only ever writes SF keys: the
value of every non-SF key of the SBF section is preserved. -/
theorem renumLoopA_ok_nonSF (sec : IniSection) :
    ∀ (idxs : List Int) (cfg : IniConfig),
      (∀ idx ∈ idxs, (kvGet sec (sfKeyS idx)).isSome = true) →
      ∃ cfg', renumLoopA sec idxs cfg = .ok cfg' ∧
        ∀ sec0, kvGet cfg "SBF" = some sec0 →
          ∃ sec1, kvGet cfg' "SBF" = some sec1 ∧
            ∀ k, sfKeyIndex k = none → kvGet sec1 k = kvGet sec0 k := by
  intro idxs
  induction idxs with
  | nil =>
    intro cfg h
    exact ⟨cfg, rfl, fun sec0 h0 => ⟨sec0, h0, fun k hk => rfl⟩⟩
  | cons idx rest ih =>
    intro cfg h
    obtain ⟨v, hv⟩ := Option.isSome_iff_exists.mp (h idx (List.mem_cons_self idx rest))
    obtain ⟨cfg', h1, h2⟩ := ih (updSBF cfg (fun s => kvSet s (sfKeyS idx) v))
      (fun j hj => h j (List.mem_cons_of_mem idx hj))
    refine ⟨cfg', ?_, ?_⟩
    · unfold renumLoopA
      rw [List.foldlM_cons, hv]
      simp only [bind, Except.instMonad, Except.bind, pure, Except.pure]
      exact h1
    · intro sec0 h0
      have hmid : kvGet (updSBF cfg (fun s => kvSet s (sfKeyS idx) v)) "SBF"
          = some (kvSet sec0 (sfKeyS idx) v) := by
        rw [kvGet_updSBF, h0]
        rfl
      obtain ⟨sec1, hh1, hh2⟩ := h2 _ hmid
      refine ⟨sec1, hh1, fun k hk => ?_⟩
      rw [hh2 k hk, kvGet_kvSet_other _ _ (Ne.symm (sfKeyS_ne_of_none idx hk))]

/-- The second renumbering loop likewise: it succeeds whenever every key it
reads is present, and preserves every non-SF key of the SBF section. -/
theorem renumLoopB_ok_nonSF (sec : IniSection) :
    ∀ (idxs : List Int) (cfg : IniConfig),
      (∀ idx ∈ idxs, (kvGet sec (sfKeyS (idx + 1))).isSome = true) →
      ∃ cfg', renumLoopB sec idxs cfg = .ok cfg' ∧
        ∀ sec0, kvGet cfg "SBF" = some sec0 →
          ∃ sec1, kvGet cfg' "SBF" = some sec1 ∧
            ∀ k, sfKeyIndex k = none → kvGet sec1 k = kvGet sec0 k := by
  intro idxs
  induction idxs with
  | nil =>
    intro cfg h
    exact ⟨cfg, rfl, fun sec0 h0 => ⟨sec0, h0, fun k hk => rfl⟩⟩
  | cons idx rest ih =>
    intro cfg h
    obtain ⟨v, hv⟩ := Option.isSome_iff_exists.mp (h idx (List.mem_cons_self idx rest))
    obtain ⟨cfg', h1, h2⟩ := ih (updSBF cfg (fun s => kvSet s (sfKeyS idx) v))
      (fun j hj => h j (List.mem_cons_of_mem idx hj))
    refine ⟨cfg', ?_, ?_⟩
    · unfold renumLoopB
      rw [List.foldlM_cons, hv]
      simp only [bind, Except.instMonad, Except.bind, pure, Except.pure]
      exact h1
    · intro sec0 h0
      have hmid : kvGet (updSBF cfg (fun s => kvSet s (sfKeyS idx) v)) "SBF"
          = some (kvSet sec0 (sfKeyS idx) v) := by
        rw [kvGet_updSBF, h0]
        rfl
      obtain ⟨sec1, hh1, hh2⟩ := h2 _ hmid
      refine ⟨sec1, hh1, fun k hk => ?_⟩
      rw [hh2 k hk, kvGet_kvSet_other _ _ (Ne.symm (sfKeyS_ne_of_none idx hk))]

/-- Computation of remove_sf at an ARBITRARY field position of a canonical
header: the field's column is deleted from the matrix, both renumbering
loops (which here genuinely move keys when the position is not the last)
succeed, and the final header still holds the original Points value while
SFCount has been decremented - the shape invariant is preserved. -/
theorem remove_sf_any_invariant (a p c g : String) (pre post : List String) (M : Mat)
    (ha_post : a ∉ post)
    (hc : pyIntOptL c.data = some (((pre ++ a :: post).length : Nat) : Int))
    (hM : M.ncols = (pre ++ a :: post).length) :
    ∃ cf4 sec4,
      remove_sf a M (canonicalCfgC p c g (pre ++ a :: post))
        = .ok (M.delCol pre.length, cf4) ∧
      kvGet cf4 "SBF" = some sec4 ∧
      kvGet sec4 "Points" = some p ∧
      kvGet sec4 "SFCount"
        = some (intRepr ((((pre ++ a :: post).length : Nat) : Int) - 1)) := by
  have h0 : getSBFE (canonicalCfgC p c g (pre ++ a :: post))
      = .ok (canonicalSecC p c g (pre ++ a :: post)) := getSBFE_single _
  have hlk : dictLookup (get_name_index_dict (canonicalSecC p c g (pre ++ a :: post))) a
      = some (pre.length : Int) := by
    rw [gnid_canonical, dictLookup_namePairs_at pre post a 0 ha_post, zero_add]
  have hidx : npColIndex (pre.length : Int) M.ncols = .ok pre.length := by
    rw [hM]
    exact npColIndex_lt pre.length _ (by rw [List.length_append, List.length_cons]; omega)
  have hsc : kvGet (canonicalSecC p c g (pre ++ a :: post)) "SFCount" = some c :=
    kvGet_canonical_SFCount _ _ _ _
  have hcfg2 : updSBF (setSBF (canonicalCfgC p c g (pre ++ a :: post))
        (kvSet (canonicalSecC p c g (pre ++ a :: post)) "SFCount"
          (intRepr ((((pre ++ a :: post).length : Nat) : Int) - 1))))
        (fun s => kvDel s (sfKeyS (((pre ++ a :: post).length : Nat) : Int)))
      = [("SBF", kvDel (canonicalSecC p
            (intRepr ((((pre ++ a :: post).length : Nat) : Int) - 1)) g (pre ++ a :: post))
          (sfKeyS (((pre ++ a :: post).length : Nat) : Int)))] := by
    rw [kvSet_canonical_SFCount]
    rw [show canonicalCfgC p c g (pre ++ a :: post)
        = [("SBF", canonicalSecC p c g (pre ++ a :: post))] from rfl]
    rw [setSBF_single, updSBF_single]
  have hA0 : ∀ idx ∈ pyRange 1 ((pre.length : Int) + 1),
      (kvGet (canonicalSecC p c g (pre ++ a :: post)) (sfKeyS idx)).isSome = true := by
    intro idx hmem
    rw [mem_pyRange] at hmem
    obtain ⟨jn, rfl⟩ : ∃ jn : Nat, idx = (jn : Int) := ⟨idx.toNat, by omega⟩
    have hj1 : 1 ≤ jn := by omega
    have hj2 : jn < 1 + (pre ++ a :: post).length := by
      rw [List.length_append, List.length_cons]
      omega
    rw [kvGet_canonical_sfKeyS, kvGet_sfNamesFrom_at _ 1 jn hj1 hj2]
    rfl
  obtain ⟨cf3, hA, hApres⟩ := renumLoopA_ok_nonSF (canonicalSecC p c g (pre ++ a :: post))
    (pyRange 1 ((pre.length : Int) + 1))
    [("SBF", kvDel (canonicalSecC p
        (intRepr ((((pre ++ a :: post).length : Nat) : Int) - 1)) g (pre ++ a :: post))
      (sfKeyS (((pre ++ a :: post).length : Nat) : Int)))]
    hA0
  have hB0 : ∀ idx ∈ pyRange ((pre.length : Int) + 1)
        (((pre ++ a :: post).length : Nat) : Int),
      (kvGet (canonicalSecC p c g (pre ++ a :: post)) (sfKeyS (idx + 1))).isSome = true := by
    intro idx hmem
    rw [mem_pyRange] at hmem
    obtain ⟨jn, hjn⟩ : ∃ jn : Nat, idx + 1 = (jn : Int) := ⟨(idx + 1).toNat, by omega⟩
    have hj1 : 1 ≤ jn := by omega
    have hj2 : jn < 1 + (pre ++ a :: post).length := by
      have h2 := hmem.2
      omega
    rw [hjn, kvGet_canonical_sfKeyS, kvGet_sfNamesFrom_at _ 1 jn hj1 hj2]
    rfl
  obtain ⟨cf4, hB, hBpres⟩ := renumLoopB_ok_nonSF (canonicalSecC p c g (pre ++ a :: post))
    (pyRange ((pre.length : Int) + 1) (((pre ++ a :: post).length : Nat) : Int)) cf3 hB0
  have hsec2 : kvGet [("SBF", kvDel (canonicalSecC p
        (intRepr ((((pre ++ a :: post).length : Nat) : Int) - 1)) g (pre ++ a :: post))
      (sfKeyS (((pre ++ a :: post).length : Nat) : Int)))] "SBF"
      = some (kvDel (canonicalSecC p
          (intRepr ((((pre ++ a :: post).length : Nat) : Int) - 1)) g (pre ++ a :: post))
        (sfKeyS (((pre ++ a :: post).length : Nat) : Int))) := rfl
  obtain ⟨sec3, hsec3, hpres3⟩ := hApres _ hsec2
  obtain ⟨sec4, hsec4, hpres4⟩ := hBpres _ hsec3
  refine ⟨cf4, sec4, ?_, hsec4, ?_, ?_⟩
  · unfold remove_sf
    rw [h0]
    simp only [bind, Except.instMonad, Except.bind, hlk, hidx, hsc, hc]
    rw [hcfg2, hA]
    simp only [bind, Except.instMonad, Except.bind]
    rw [hB]
    rfl
  · rw [hpres4 _ sfKeyIndex_Points, hpres3 _ sfKeyIndex_Points,
      kvGet_kvDel_other _ (Ne.symm (sfKeyS_ne_Points _)), kvGet_canonical_Points]
  · rw [hpres4 _ sfKeyIndex_SFCount, hpres3 _ sfKeyIndex_SFCount,
      kvGet_kvDel_other _ (Ne.symm (sfKeyS_ne_SFCount _)), kvGet_canonical_SFCount]

/-! ### C5 -/

/-- C5: header/body consistency invariant.  On a canonical header whose
Points and SFCount record the matrix shape, add_sf yields a header whose
Points and SFCount again spell the new matrix's row and column counts;
remove_sf does so at EVERY field position - first, middle or last, so in
particular where the renumbering loops genuinely move keys; rename_sf
changes neither the shape slots nor the field count; and write_sbf - with
scalar fields present or absent - recomputes Points and SFCount from the
actual matrix shapes: its hypotheses say nothing about the previously
stored Points and SFCount values, which are overwritten unconditionally. -/
theorem header_body_invariant :
    (∀ (name g : String) (ns : List String) (M : Mat) (col : List ℚ),
      ns.length = M.ncols → col.length = M.nrows →
      add_sf name M (canonicalCfgC (natRepr M.nrows) (natRepr M.ncols) g ns) col
        = .ok (M.addCol col,
               canonicalCfgC (natRepr (M.addCol col).nrows)
                 (natRepr (M.addCol col).ncols) g (ns ++ [name]))) ∧
    (∀ (a g : String) (pre post : List String) (M : Mat),
      a ∉ post → M.ncols = (pre ++ a :: post).length →
      ∃ cf4 sec4,
        remove_sf a M
            (canonicalCfgC (natRepr M.nrows) (natRepr M.ncols) g (pre ++ a :: post))
          = .ok (M.delCol pre.length, cf4) ∧
        kvGet cf4 "SBF" = some sec4 ∧
        kvGet sec4 "Points" = some (natRepr (M.delCol pre.length).nrows) ∧
        kvGet sec4 "SFCount" = some (natRepr (M.delCol pre.length).ncols)) ∧
    (∀ (a b g : String) (pre post : List String) (M : Mat),
      a ∉ post → pre.length + 1 + post.length = M.ncols →
      rename_sf a b (canonicalCfgC (natRepr M.nrows) (natRepr M.ncols) g (pre ++ a :: post))
        = .ok (canonicalCfgC (natRepr M.nrows) (natRepr M.ncols) g (pre ++ b :: post))
      ∧ (pre ++ b :: post).length = M.ncols) ∧
    (∀ (f32 : ℚ → ℚ) (pc m : Mat) (cf : IniConfig) (sec : IniSection)
       (gsStr : String) (gs : List ℚ),
      kvGet cf "SBF" = some sec → kvGet sec "GlobalShift" = some gsStr →
      evalTriple gsStr = some gs → pc.ncols = 3 → m.ncols ≠ 0 → m.nrows = pc.nrows →
      ∃ cfW pd secW,
        write_sbf f32 pc (some m) (some cf) false none = .ok (cfW, pd) ∧
        kvGet cfW "SBF" = some secW ∧
        kvGet secW "Points" = some (natRepr pc.nrows) ∧
        kvGet secW "SFCount" = some (natRepr m.ncols) ∧
        pd.Np = pc.nrows ∧ pd.Ns = m.ncols) ∧
    (∀ (f32 : ℚ → ℚ) (pc : Mat) (cf : IniConfig) (sec : IniSection)
       (gsStr : String) (gs : List ℚ),
      kvGet cf "SBF" = some sec → kvGet sec "GlobalShift" = some gsStr →
      evalTriple gsStr = some gs → pc.ncols = 3 →
      ∃ cfW pd secW,
        write_sbf f32 pc none (some cf) false none = .ok (cfW, pd) ∧
        kvGet cfW "SBF" = some secW ∧
        kvGet secW "Points" = some (natRepr pc.nrows) ∧
        kvGet secW "SFCount" = some (natRepr 0) ∧
        pd.Np = pc.nrows ∧ pd.Ns = 0) := by
  refine ⟨?_, ?_, ?_, ?_, ?_⟩
  · intro name g ns M col hns hcol
    have hc : pyIntOptL (natRepr M.ncols).data = some (ns.length : Int) := by
      rw [hns]
      exact pyInt_natRepr M.ncols
    have h := add_sf_canonical name (natRepr M.nrows) (natRepr M.ncols) g ns M col hc hcol
    rw [show intRepr ((ns.length : Int) + 1) = natRepr ((M.addCol col).ncols) from by
      rw [intRepr_add_one, hns]; rfl] at h
    exact h
  · intro a g pre post M hapost hM
    have hc : pyIntOptL (natRepr M.ncols).data
        = some (((pre ++ a :: post).length : Nat) : Int) := by
      rw [hM]
      exact pyInt_natRepr _
    obtain ⟨cf4, sec4, h1, h2, h3, h4⟩ :=
      remove_sf_any_invariant a (natRepr M.nrows) (natRepr M.ncols) g pre post M
        hapost hc hM
    refine ⟨cf4, sec4, h1, h2, h3, ?_⟩
    rw [h4]
    congr 1
    have hS1 : 1 ≤ (pre ++ a :: post).length := by
      rw [List.length_append, List.length_cons]
      omega
    rw [show (((pre ++ a :: post).length : Nat) : Int) - 1
        = (((pre ++ a :: post).length - 1 : Nat) : Int) from by omega, intRepr_natCast]
    congr 1
    show (pre ++ a :: post).length - 1 = M.ncols - 1
    omega
  · intro a b g pre post M hapost hlen
    refine ⟨rename_sf_canonical a b (natRepr M.nrows) (natRepr M.ncols) g pre post hapost,
      ?_⟩
    simp only [List.length_append, List.length_cons]
    omega
  · intro f32 pc m cf sec gsStr gs hsec hgs hev hpc3 hm0 hmr
    refine ⟨_, _, kvSet (kvSet sec "Points" (natRepr pc.nrows)) "SFCount" (natRepr m.ncols),
      write_sbf_ok_some f32 pc m cf sec gsStr gs hsec hgs hev hpc3 hm0 hmr,
      ?_, ?_, ?_, rfl, rfl⟩
    · rw [kvGet_updSBF, kvGet_updSBF, hsec]
      rfl
    · rw [kvGet_kvSet_other _ _ (by decide : "Points" ≠ "SFCount"), kvGet_kvSet_self]
    · rw [kvGet_kvSet_self]
  · intro f32 pc cf sec gsStr gs hsec hgs hev hpc3
    refine ⟨_, _, kvSet (kvSet sec "Points" (natRepr pc.nrows)) "SFCount" (natRepr 0),
      write_sbf_ok_nosf f32 pc cf sec gsStr gs hsec hgs hev hpc3,
      ?_, ?_, ?_, rfl, rfl⟩
    · rw [kvGet_updSBF, kvGet_updSBF, hsec]
      rfl
    · rw [kvGet_kvSet_other _ _ (by decide : "Points" ≠ "SFCount"), kvGet_kvSet_self]
    · rw [kvGet_kvSet_self]

/-- Witness for C5: each of the five operations run on a concrete
shape-consistent Document; the removal is of the MIDDLE field of three,
so the second renumbering loop genuinely moves a key. -/
theorem header_body_invariant_witness :
    (add_sf "n" (⟨1, 1, [[5]]⟩ : Mat)
        (canonicalCfgC (natRepr (⟨1, 1, [[5]]⟩ : Mat).nrows)
          (natRepr (⟨1, 1, [[5]]⟩ : Mat).ncols) "0., 0., 0." ["x"]) [6]
      = .ok ((⟨1, 1, [[5]]⟩ : Mat).addCol [6],
             canonicalCfgC (natRepr ((⟨1, 1, [[5]]⟩ : Mat).addCol [6]).nrows)
               (natRepr ((⟨1, 1, [[5]]⟩ : Mat).addCol [6]).ncols) "0., 0., 0."
               (["x"] ++ ["n"]))) ∧
    (∃ cf4 sec4,
      remove_sf "y" (⟨1, 3, [[5, 6, 7]]⟩ : Mat)
          (canonicalCfgC (natRepr (⟨1, 3, [[5, 6, 7]]⟩ : Mat).nrows)
            (natRepr (⟨1, 3, [[5, 6, 7]]⟩ : Mat).ncols) "0., 0., 0."
            (["x"] ++ "y" :: ["z"]))
        = .ok ((⟨1, 3, [[5, 6, 7]]⟩ : Mat).delCol (["x"] : List String).length, cf4) ∧
      kvGet cf4 "SBF" = some sec4 ∧
      kvGet sec4 "Points"
        = some (natRepr ((⟨1, 3, [[5, 6, 7]]⟩ : Mat).delCol
            (["x"] : List String).length).nrows) ∧
      kvGet sec4 "SFCount"
        = some (natRepr ((⟨1, 3, [[5, 6, 7]]⟩ : Mat).delCol
            (["x"] : List String).length).ncols)) ∧
    (rename_sf "a" "b"
        (canonicalCfgC (natRepr (⟨1, 1, [[5]]⟩ : Mat).nrows)
          (natRepr (⟨1, 1, [[5]]⟩ : Mat).ncols) "0., 0., 0." ([] ++ "a" :: []))
      = .ok (canonicalCfgC (natRepr (⟨1, 1, [[5]]⟩ : Mat).nrows)
          (natRepr (⟨1, 1, [[5]]⟩ : Mat).ncols) "0., 0., 0." ([] ++ "b" :: []))
      ∧ (([] : List String) ++ "b" :: []).length = (⟨1, 1, [[5]]⟩ : Mat).ncols) ∧
    (∃ cfW pd secW,
      write_sbf id pcW4 (some mW4) (some hdrW) false none = .ok (cfW, pd) ∧
      kvGet cfW "SBF" = some secW ∧
      kvGet secW "Points" = some (natRepr pcW4.nrows) ∧
      kvGet secW "SFCount" = some (natRepr mW4.ncols) ∧
      pd.Np = pcW4.nrows ∧ pd.Ns = mW4.ncols) ∧
    (∃ cfW pd secW,
      write_sbf id pcW4 none (some hdrW) false none = .ok (cfW, pd) ∧
      kvGet cfW "SBF" = some secW ∧
      kvGet secW "Points" = some (natRepr pcW4.nrows) ∧
      kvGet secW "SFCount" = some (natRepr 0) ∧
      pd.Np = pcW4.nrows ∧ pd.Ns = 0) :=
  ⟨header_body_invariant.1 "n" "0., 0., 0." ["x"] ⟨1, 1, [[5]]⟩ [6] rfl rfl,
   header_body_invariant.2.1 "y" "0., 0., 0." ["x"] ["z"] ⟨1, 3, [[5, 6, 7]]⟩
     (by decide) rfl,
   header_body_invariant.2.2.1 "a" "b" "0., 0., 0." [] [] ⟨1, 1, [[5]]⟩ (by simp) rfl,
   header_body_invariant.2.2.2.1 id pcW4 mW4 hdrW
     [("Points", "1"), ("SFCount", "0"), ("GlobalShift", "0., 0., 0.")]
     "0., 0., 0." [0, 0, 0] rfl rfl
     (by simp +decide [evalTriple, splitComma, trimChars, evalTriple.optMapParse,
       parsePyNumber, stripSign, splitAtExp, splitAtDot, parseMantissa, pyNatOptL,
       pyDigits, digitVal, List.dropWhile])
     rfl (by decide) rfl,
   header_body_invariant.2.2.2.2 id pcW4 hdrW
     [("Points", "1"), ("SFCount", "0"), ("GlobalShift", "0., 0., 0.")]
     "0., 0., 0." [0, 0, 0] rfl rfl
     (by simp +decide [evalTriple, splitComma, trimChars, evalTriple.optMapParse,
       parsePyNumber, stripSign, splitAtExp, splitAtDot, parseMantissa, pyNatOptL,
       pyDigits, digitVal, List.dropWhile])
     rfl⟩

end SBF
